import Mathlib

/-!
# dotenv-push: formal model of the environment-variable reconcilers

A shallow embedding of the two provider reconcilers of the `dotenv-push`
CLI tool:

* `pushToConvex` — from `src/providers/convex.ts` (the bun-shell revision):
  parses `npx convex env list` output, computes the diff, asks for
  confirmation, sets all desired variables, then removes stale ones
  (removal failures are downgraded to warnings).
* `pushToVercel` — from `src/providers/vercel.ts` (the named-scope
  revision): resolves project id, token and scope, filters the fetched
  remote entries to the requested scope, asks for confirmation, deletes
  the scope-matching entries, then issues one bulk `createProjectEnv`
  upsert of the desired set.

Each reconciler is modelled as a pure function from its options and a
"world" (the responses of the provider, the file system and the operator)
to the trace of externally visible calls together with the final result
(`Except PushError Unit`; a user cancellation is a normal `ok` return, as
in the source).  String manipulation mirrors the JavaScript operations
(`split`, `trim`, `includes`, `toLowerCase`, `Set`) on `List Char`, so
that every definition evaluates by kernel reduction.
-/

namespace DotenvPush

/-! ## String helpers mirroring the JavaScript operations -/

/-- Split a character list at every occurrence of the separator character;
mirrors JavaScript `s.split(c)` (returns one, possibly empty, field more
than the number of separators). -/
def splitOnChar (c : Char) : List Char → List (List Char)
  | [] => [[]]
  | x :: xs =>
    let rest := splitOnChar c xs
    if x = c then [] :: rest
    else
      match rest with
      | [] => [[x]]
      | r :: rs => (x :: r) :: rs

/-- JavaScript `String.prototype.trim`: drop whitespace from both ends. -/
def trimChars (l : List Char) : List Char :=
  ((l.dropWhile Char.isWhitespace).reverse.dropWhile Char.isWhitespace).reverse

/-- Does the character list start with the pattern? -/
def startsWithChars : List Char → List Char → Bool
  | [], _ => true
  | _ :: _, [] => false
  | p :: ps, x :: xs => p = x && startsWithChars ps xs

/-- Does the pattern occur as a contiguous run inside the character list? -/
def hasSubChars (pat : List Char) : List Char → Bool
  | [] => pat.isEmpty
  | x :: xs => startsWithChars pat (x :: xs) || hasSubChars pat xs

/-- JavaScript `s.includes(pat)`: substring containment (case-sensitive). -/
def strIncludes (s pat : String) : Bool :=
  hasSubChars pat.toList s.toList

/-- JavaScript `s.toLowerCase()` (on the code points the model cares about). -/
def lowerStr (s : String) : String :=
  String.mk (s.toList.map Char.toLower)

/-- JavaScript truthiness of a string: the empty string is falsy. -/
def truthyStr (s : String) : Bool := !(s == "")

/-- JavaScript `new Set(list)` read back in iteration order: keep the first
occurrence of every element. -/
def jsSetList (l : List String) : List String :=
  l.foldl (fun acc k => if acc.contains k then acc else acc ++ [k]) []

/-! ## Error and result model

`ConfigError` and the provider API errors (`ConvexApiError`,
`VercelApiError`) from `src/types/index.ts`; all other behaviour of the
reconcilers ends in a normal return, which includes user cancellation. -/

/-- The fatal error kinds thrown by the reconcilers. -/
inductive PushError
  | config (msg : String)
  | api (msg : String)
deriving DecidableEq, Repr

instance {ε α : Type} [DecidableEq ε] [DecidableEq α] : DecidableEq (Except ε α)
  | .error a, .error b => decidable_of_iff (a = b) (by simp)
  | .error _, .ok _ => isFalse (by simp)
  | .ok _, .error _ => isFalse (by simp)
  | .ok a, .ok b => decidable_of_iff (a = b) (by simp)

/-! ## Convex reconciler (`src/providers/convex.ts`) -/

/-- Externally visible calls of one `pushToConvex` run, in order:
the `convex env list` shell-out, the confirmation prompt, each
`convex env set`, each `convex env remove`, and the warning logged when a
removal fails. -/
inductive CEvent
  | list
  | prompt
  | set (key value : String)
  | remove (key : String)
  | warn (key : String)
deriving DecidableEq, Repr

/-- `ConvexPushOptions` from `src/types/index.ts`. -/
structure ConvexOptions where
  envVars : List (String × String)
  skipConfirmation : Bool
  deploymentName : Option String

/-- The environment of one Convex run: the outcome of the `env list`
shell-out (stdout on success, stderr on failure), the operator's answer as
returned by the prompt utility, and the outcome of each `env set` /
`env remove` shell-out by key. -/
structure ConvexWorld where
  listExit : Except String String
  answer : String
  setExit : String → Except String Unit
  removeExit : String → Except String Unit

/-- Parse the `convex env list` stdout into the current key set:
split into lines, keep lines containing `=`, take the trimmed text before
the first `=`, and deduplicate (JavaScript `Set`). -/
def parseCurrentEnvKeys (stdout : String) : List String :=
  jsSetList
    (((splitOnChar '\n' stdout.toList).filter (fun line => line.contains '=')).map
      (fun line => String.mk (trimChars (line.takeWhile (fun c => c ≠ '=')))))

/-- The keys to remove: current keys that are truthy (non-empty) and not
among the desired keys. -/
def keysToRemove (currentEnvKeys newEnvKeys : List String) : List String :=
  currentEnvKeys.filter (fun k => truthyStr k && !(newEnvKeys.contains k))

/-- Classification of a `convex env list` failure: authentication and
missing-`convex.json` stderr become `ConfigError`, anything else becomes
`ConvexApiError`. -/
def classifyConvexListError (stderr : String) : PushError :=
  if strIncludes stderr "not logged in" || strIncludes stderr "auth" then
    .config "Not logged in to Convex. Run npx convex login first."
  else if strIncludes stderr "No convex.json" then
    .config "No convex.json found. Make sure you are in a Convex project directory."
  else
    .api ("Failed to list environment variables: " ++ stderr)

/-- The set phase: one `convex env set` per desired entry, in order; the
first failure stops the loop and yields a `ConvexApiError` naming the key. -/
def runConvexSets (entries : List (String × String))
    (setExit : String → Except String Unit) : List CEvent × Option PushError :=
  match entries with
  | [] => ([], none)
  | (k, v) :: rest =>
    match setExit k with
    | .error stderr => ([.set k v], some (.api ("Failed to set " ++ k ++ ": " ++ stderr)))
    | .ok _ =>
      let r := runConvexSets rest setExit
      (.set k v :: r.1, r.2)

/-- The remove phase: one `convex env remove` per stale key; a failure is
logged as a warning (whether or not the stderr classifies as the
required-by-config case) and the loop continues. -/
def runConvexRemoves (keys : List String)
    (removeExit : String → Except String Unit) : List CEvent :=
  match keys with
  | [] => []
  | k :: rest =>
    match removeExit k with
    | .error _ => .remove k :: .warn k :: runConvexRemoves rest removeExit
    | .ok _ => .remove k :: runConvexRemoves rest removeExit

/-- The keys to remove as computed by a Convex run from the `env list`
stdout and the desired variables. -/
def convexToRemove (stdout : String) (envVars : List (String × String)) : List String :=
  keysToRemove (parseCurrentEnvKeys stdout) (envVars.map Prod.fst)

/-- The prompt event of a run, present exactly when confirmation was not
skipped. -/
def convexConfirmEvents (skipConfirmation : Bool) : List CEvent :=
  if skipConfirmation then [] else [CEvent.prompt]

/-- The apply phase of a Convex run: the set phase, and on its full
success the remove phase. -/
def convexApply (o : ConvexOptions) (w : ConvexWorld) (stdout : String) :
    List CEvent × Except PushError Unit :=
  match (runConvexSets o.envVars w.setExit).2 with
  | some e =>
    (.list :: convexConfirmEvents o.skipConfirmation ++
       (runConvexSets o.envVars w.setExit).1,
     .error e)
  | none =>
    (.list :: convexConfirmEvents o.skipConfirmation ++
       (runConvexSets o.envVars w.setExit).1 ++
       runConvexRemoves (convexToRemove stdout o.envVars) w.removeExit,
     .ok ())

/-- The Convex reconciler: trace of external calls and final result.
Mirrors `pushToConvex` of `src/providers/convex.ts`: empty-input guard,
`env list` with error classification, diff computation, confirmation
(any answer whose lowercasing is not `yes` cancels with a normal return),
the set phase (first failure aborts), then the remove phase. -/
def pushToConvex (o : ConvexOptions) (w : ConvexWorld) :
    List CEvent × Except PushError Unit :=
  if o.envVars.length = 0 then
    ([], .error (.config "No environment variables provided"))
  else
    match w.listExit with
    | .error stderr => ([.list], .error (classifyConvexListError stderr))
    | .ok stdout =>
      if !o.skipConfirmation && !(lowerStr w.answer == "yes") then
        ([.list, .prompt], .ok ())
      else convexApply o w stdout

/-! ## Vercel reconciler (`src/providers/vercel.ts`, named-scope revision) -/

/-- One remote environment variable as reported by
`vercel.projects.filterProjectEnvs`: the optional deletion handle, the
name, the optional list of targets and the optional list of custom
environment ids it belongs to. -/
structure RemoteEnv where
  id : Option String
  key : String
  target : Option (List String)
  customEnvironmentIds : Option (List String)
deriving DecidableEq, Repr

/-- One custom environment as reported by the custom-environments lookup. -/
structure CustomEnv where
  id : Option String
  slug : Option String
deriving DecidableEq, Repr

/-- The storage scope carried by one entry of the bulk upsert request:
either a list of well-known targets or a list of custom environment ids. -/
inductive ScopePayload
  | targets (ts : List String)
  | customIds (ids : List String)
deriving DecidableEq, Repr

/-- One entry of the `createProjectEnv` request body. -/
structure EnvPayload where
  key : String
  value : String
  encrypted : Bool
  scope : ScopePayload
deriving DecidableEq, Repr

/-- Externally visible calls of one `pushToVercel` run, in order: the
custom-environments lookup, the `filterProjectEnvs` list, the confirmation
prompt, each `removeProjectEnv` (by handle), and the single bulk
`createProjectEnv` upsert. -/
inductive VEvent
  | fetchCustomEnvs
  | listEnvs
  | prompt
  | removeEnv (id : String)
  | createEnvs (body : List EnvPayload)
deriving DecidableEq, Repr

/-- `VercelPushOptions` from `src/types/index.ts`. -/
structure VercelOptions where
  projectId : Option String
  token : Option String
  envVars : List (String × String)
  target : String
  skipConfirmation : Bool

/-- The environment of one Vercel run: the outcome of reading
`.vercel/project.json`, the `VERCEL_TOKEN` environment variable, the token
the operator would type if prompted, the responses of the
custom-environments lookup and of `filterProjectEnvs`, the operator's
confirmation answer, and the outcome of each `removeProjectEnv` (by
handle) and of the bulk `createProjectEnv`. -/
structure VercelWorld where
  fileProjectId : Except String String
  envToken : Option String
  promptedToken : String
  customEnvsExit : Except String (List CustomEnv)
  listExit : Except String (List RemoteEnv)
  answer : String
  removeExit : String → Except String Unit
  createExit : Except String Unit

/-- The three well-known Vercel targets. -/
def KNOWN_VERCEL_TARGETS : List String := ["production", "preview", "development"]

/-- `getVercelToken` of `src/utils/vercel.ts`: the command-line token if
truthy, else the `VERCEL_TOKEN` environment variable if truthy, else the
prompted value. -/
def resolveVercelToken (tokenArg envToken : Option String) (prompted : String) : String :=
  if truthyStr (tokenArg.getD "") then tokenArg.getD ""
  else if truthyStr (envToken.getD "") then envToken.getD ""
  else prompted

/-- The scope-membership test applied to each fetched entry (the
`targetEnvs` filter): for a well-known target the entry's target list must
exist and contain the normalized target (case-insensitively); otherwise
the entry's custom environment ids must contain the resolved custom
environment id. -/
def envScopeMatches (isKnownTarget : Bool) (normalizedTarget : String)
    (customEnvironmentId : Option String) (env : RemoteEnv) : Bool :=
  if isKnownTarget then
    match env.target with
    | none => false
    | some ts => (ts.map lowerStr).contains normalizedTarget
  else
    match customEnvironmentId, env.customEnvironmentIds with
    | some cid, some ids => truthyStr cid && ids.contains cid
    | _, _ => false

/-- Custom-environment resolution: the id of the first environment whose
slug lowercases to the normalized target (`match?.id`). -/
def resolveCustomEnvId (normalizedTarget : String) (envs : List CustomEnv) : Option String :=
  match envs.find? (fun e =>
    match e.slug with
    | none => false
    | some s => lowerStr s == normalizedTarget) with
  | some e => e.id
  | none => none

/-- The name-based storage classification: a key is stored encrypted
exactly when it contains one of the case-sensitive substrings `KEY`,
`SECRET`, `TOKEN`. -/
def isSecretKey (key : String) : Bool :=
  strIncludes key "KEY" || strIncludes key "SECRET" || strIncludes key "TOKEN"

/-- The `createProjectEnv` request body: one entry per desired variable,
carrying its value, its storage classification and the requested scope.
(The in-loop missing-custom-environment throw of the source is unreachable
here: the id was validated before the remove phase.) -/
def vercelRequestBody (envVars : List (String × String)) (isKnownTarget : Bool)
    (normalizedTarget customEnvironmentId : String) : List EnvPayload :=
  envVars.map (fun kv =>
    { key := kv.1
      value := kv.2
      encrypted := isSecretKey kv.1
      scope := if isKnownTarget then ScopePayload.targets [normalizedTarget]
               else ScopePayload.customIds [customEnvironmentId] })

/-- The remove phase: one `removeProjectEnv` per scope-matching entry with
a truthy id; entries without a truthy id are skipped; the first failure
stops the loop and aborts the run. -/
def runVercelRemoves (envs : List RemoteEnv)
    (removeExit : String → Except String Unit) : List VEvent × Option String :=
  match envs with
  | [] => ([], none)
  | e :: rest =>
    match e.id with
    | none => runVercelRemoves rest removeExit
    | some i =>
      if i == "" then runVercelRemoves rest removeExit
      else
        match removeExit i with
        | .error msg => ([.removeEnv i], some msg)
        | .ok _ =>
          let r := runVercelRemoves rest removeExit
          (.removeEnv i :: r.1, r.2)

/-- The custom-environment phase of a Vercel run: nothing for a
well-known target; otherwise the lookup call, whose failure aborts the
run and whose miss (or falsy resolved id) is a `ConfigError`. -/
def vercelCustomPhase (projectId : String) (o : VercelOptions) (w : VercelWorld)
    (isKnownTarget : Bool) (normalizedTarget : String) :
    List VEvent × Except PushError (Option String) :=
  if isKnownTarget then ([], .ok none)
  else
    match w.customEnvsExit with
    | .error msg =>
      ([.fetchCustomEnvs], .error (.api ("Failed to deploy to Vercel: " ++ msg)))
    | .ok envs =>
      match resolveCustomEnvId normalizedTarget envs with
      | some cid =>
        if cid == "" then
          ([.fetchCustomEnvs],
           .error (.config ("Custom environment " ++ o.target ++ " not found for project " ++ projectId)))
        else ([.fetchCustomEnvs], .ok (some cid))
      | none =>
        ([.fetchCustomEnvs],
         .error (.config ("Custom environment " ++ o.target ++ " not found for project " ++ projectId)))

/-- The prompt event of a Vercel run, present exactly when confirmation
was not skipped. -/
def vercelConfirmEvents (skipConfirmation : Bool) : List VEvent :=
  if skipConfirmation then [] else [VEvent.prompt]

/-- The apply phase of a Vercel run: the remove phase over the
scope-matching entries (a failure aborts the run with `VercelApiError`),
then the single bulk upsert. -/
def vercelApply (o : VercelOptions) (w : VercelWorld) (isKnownTarget : Bool)
    (normalizedTarget : String) (customEnvironmentId : Option String)
    (targetEnvs : List RemoteEnv) : List VEvent × Except PushError Unit :=
  match (runVercelRemoves targetEnvs w.removeExit).2 with
  | some msg =>
    (vercelConfirmEvents o.skipConfirmation ++ (runVercelRemoves targetEnvs w.removeExit).1,
     .error (.api ("Failed to deploy to Vercel: " ++ msg)))
  | none =>
    match w.createExit with
    | .error msg =>
      (vercelConfirmEvents o.skipConfirmation ++ (runVercelRemoves targetEnvs w.removeExit).1 ++
         [.createEnvs (vercelRequestBody o.envVars isKnownTarget normalizedTarget
           (customEnvironmentId.getD ""))],
       .error (.api ("Failed to deploy to Vercel: " ++ msg)))
    | .ok _ =>
      (vercelConfirmEvents o.skipConfirmation ++ (runVercelRemoves targetEnvs w.removeExit).1 ++
         [.createEnvs (vercelRequestBody o.envVars isKnownTarget normalizedTarget
           (customEnvironmentId.getD ""))],
       .ok ())

/-- The normalized target of a Vercel run (`target.toLowerCase()`). -/
def vercelNormTarget (o : VercelOptions) : String := lowerStr o.target

/-- Is the requested target one of the three well-known names? -/
def vercelIsKnown (o : VercelOptions) : Bool :=
  KNOWN_VERCEL_TARGETS.contains (vercelNormTarget o)

/-- The scope-matching fetched entries of a Vercel run (`targetEnvs`). -/
def vercelTargetEnvs (o : VercelOptions) (customEnvironmentId : Option String)
    (envs : List RemoteEnv) : List RemoteEnv :=
  envs.filter (envScopeMatches (vercelIsKnown o) (vercelNormTarget o) customEnvironmentId)

/-- The body of `pushToVercel` after project id and token resolution
(the `try` block): empty-input guard, custom-environment resolution for a
non-well-known target, the `filterProjectEnvs` list, the scope filter,
confirmation (any answer whose lowercasing is not `yes` cancels with a
normal return), then the apply phase. -/
def vercelRun (projectId : String) (o : VercelOptions) (w : VercelWorld) :
    List VEvent × Except PushError Unit :=
  if o.envVars.length = 0 then
    ([], .error (.config "No environment variables provided"))
  else
    match vercelCustomPhase projectId o w (vercelIsKnown o) (vercelNormTarget o) with
    | (evs, .error e) => (evs, .error e)
    | (evs, .ok customEnvironmentId) =>
      match w.listExit with
      | .error msg => (evs ++ [.listEnvs], .error (.api ("Failed to deploy to Vercel: " ++ msg)))
      | .ok envs =>
        if !o.skipConfirmation && !(lowerStr w.answer == "yes") then
          (evs ++ [.listEnvs, .prompt], .ok ())
        else
          (evs ++ [.listEnvs] ++
             (vercelApply o w (vercelIsKnown o) (vercelNormTarget o) customEnvironmentId
               (vercelTargetEnvs o customEnvironmentId envs)).1,
           (vercelApply o w (vercelIsKnown o) (vercelNormTarget o) customEnvironmentId
             (vercelTargetEnvs o customEnvironmentId envs)).2)

/-- Project id resolution: the command-line value if truthy, else the
`.vercel/project.json` value, whose failure is re-signalled as a
`ConfigError`. -/
def vercelProjectIdRes (o : VercelOptions) (w : VercelWorld) : Except PushError String :=
  if truthyStr (o.projectId.getD "") then .ok (o.projectId.getD "")
  else
    match w.fileProjectId with
    | .ok p => .ok p
    | .error _ =>
      .error (.config "Project ID is required. Use --project/-p flag or ensure .vercel/project.json exists.")

/-- The Vercel reconciler: project id resolution, token resolution (a
falsy resolved token is a `ConfigError`), then the `try` block
`vercelRun`. -/
def pushToVercel (o : VercelOptions) (w : VercelWorld) :
    List VEvent × Except PushError Unit :=
  match vercelProjectIdRes o w with
  | .error e => ([], .error e)
  | .ok projectId =>
    if resolveVercelToken o.token w.envToken w.promptedToken == "" then
      ([], .error (.config "Vercel token is required."))
    else vercelRun projectId o w

/-! ## Semantics of the provider's variable store

The remote store is the external collaborator behind the capability
interface (spec section 4.2): `upsert` creates or updates a variable by
name, `remove` deletes it.  A store is an association list of
name/value pairs; these definitions give the store state after a Convex
run, which claim C6 quantifies over. -/

/-- `upsert`: replace the value of an existing name, or append a new pair. -/
def upsertAssoc (s : List (String × String)) (k v : String) : List (String × String) :=
  if s.any (fun kv => kv.1 == k) then
    s.map (fun kv => if kv.1 == k then (k, v) else kv)
  else s ++ [(k, v)]

/-- Apply every desired pair as an upsert, left to right. -/
def upsertAllAssoc (s : List (String × String)) (d : List (String × String)) :
    List (String × String) :=
  d.foldl (fun acc kv => upsertAssoc acc kv.1 kv.2) s

/-- Delete every pair whose name is in the list. -/
def removeKeysAssoc (s : List (String × String)) (ks : List String) :
    List (String × String) :=
  s.filter (fun kv => !(ks.contains kv.1))

/-- The stale keys a Convex run actually deletes: the computed
`keysToRemove` restricted to the removals the provider accepts
(`removeOk`); a rejected removal is only warned about and leaves the
variable in place. -/
def convexRemovedKeys (currentKeys newKeys : List String) (removeOk : String → Bool) :
    List String :=
  (keysToRemove currentKeys newKeys).filter removeOk

/-- The store after a Convex run that reached the apply phase and whose
set phase succeeded: all desired pairs upserted, then the accepted
removals applied. -/
def convexPostStore (s : List (String × String)) (d : List (String × String))
    (removeOk : String → Bool) : List (String × String) :=
  removeKeysAssoc (upsertAllAssoc s d)
    (convexRemovedKeys (jsSetList (s.map Prod.fst)) (d.map Prod.fst) removeOk)

/-! ## Trace-order predicates -/

/-- Is the event a `convex env set` call? -/
def CEvent.isSet : CEvent → Bool
  | .set _ _ => true
  | _ => false

/-- Is the event a `convex env remove` call? -/
def CEvent.isRemove : CEvent → Bool
  | .remove _ => true
  | _ => false

/-- The set phase precedes the remove phase: the trace splits into a
prefix with no remove call and a suffix with no set call. -/
def setsBeforeRemoves (tr : List CEvent) : Prop :=
  ∃ pre post, tr = pre ++ post ∧ (∀ e ∈ pre, e.isRemove = false) ∧
    (∀ e ∈ post, e.isSet = false)

/-- Is the event a `removeProjectEnv` call? -/
def VEvent.isRemove : VEvent → Bool
  | .removeEnv _ => true
  | _ => false

/-- Is the event the bulk `createProjectEnv` upsert? -/
def VEvent.isCreate : VEvent → Bool
  | .createEnvs _ => true
  | _ => false

/-- Does some remove call precede some upsert call in the trace?  (The
order claim C1 asserts this never happens.) -/
def removeBeforeCreate : List VEvent → Bool
  | [] => false
  | .removeEnv _ :: rest => rest.any VEvent.isCreate || removeBeforeCreate rest
  | _ :: rest => removeBeforeCreate rest

/-- The remove phase precedes the upsert: the trace splits into a prefix
with no upsert call and a suffix with no remove call. -/
def removesBeforeCreates (tr : List VEvent) : Prop :=
  ∃ pre post, tr = pre ++ post ∧ (∀ e ∈ pre, e.isCreate = false) ∧
    (∀ e ∈ post, e.isRemove = false)

/-! ## Helper lemmas -/

theorem mem_keysToRemove {c n : List String} {k : String} :
    k ∈ keysToRemove c n ↔ k ∈ c ∧ k ≠ "" ∧ k ∉ n := by
  simp [keysToRemove, truthyStr, and_assoc]

theorem empty_not_mem_keysToRemove (c n : List String) : "" ∉ keysToRemove c n := by
  intro h
  exact (mem_keysToRemove.1 h).2.1 rfl

theorem keysToRemove_disjoint {c n : List String} {k : String}
    (h : k ∈ keysToRemove c n) : k ∉ n :=
  (mem_keysToRemove.1 h).2.2

theorem runConvexSets_isSet {entries : List (String × String)}
    {f : String → Except String Unit} {e : CEvent}
    (h : e ∈ (runConvexSets entries f).1) : e.isSet = true := by
  induction entries with
  | nil => simp [runConvexSets] at h
  | cons kv rest ih =>
    obtain ⟨k, v⟩ := kv
    rw [runConvexSets] at h
    cases hf : f k with
    | error s =>
      rw [hf] at h
      simp at h
      subst h
      rfl
    | ok u =>
      rw [hf] at h
      simp at h
      rcases h with h | h
      · subst h; rfl
      · exact ih h

theorem mem_runConvexSets {entries : List (String × String)}
    {f : String → Except String Unit} {k v : String}
    (h : CEvent.set k v ∈ (runConvexSets entries f).1) : (k, v) ∈ entries := by
  induction entries with
  | nil => simp [runConvexSets] at h
  | cons kv rest ih =>
    obtain ⟨k0, v0⟩ := kv
    rw [runConvexSets] at h
    cases hf : f k0 with
    | error s =>
      rw [hf] at h
      simp_all
    | ok u =>
      rw [hf] at h
      simp at h
      rcases h with ⟨h1, h2⟩ | h
      · simp [h1, h2]
      · exact List.mem_cons_of_mem _ (ih h)

theorem runConvexSets_none_complete {entries : List (String × String)}
    {f : String → Except String Unit}
    (h : (runConvexSets entries f).2 = none) :
    ∀ kv ∈ entries, CEvent.set kv.1 kv.2 ∈ (runConvexSets entries f).1 := by
  induction entries with
  | nil => simp
  | cons kv0 rest ih =>
    obtain ⟨k, v⟩ := kv0
    intro kv hkv
    rw [runConvexSets] at h ⊢
    cases hf : f k with
    | error s =>
      rw [hf] at h
      simp at h
    | ok u =>
      rw [hf] at h
      simp at h
      rcases List.mem_cons.1 hkv with rfl | hkv1
      · exact List.mem_cons_self ..
      · exact List.mem_cons_of_mem _ (ih h kv hkv1)

theorem mem_runConvexRemoves {ks : List String}
    {f : String → Except String Unit} {e : CEvent}
    (h : e ∈ runConvexRemoves ks f) :
    ∃ k ∈ ks, e = CEvent.remove k ∨ e = CEvent.warn k := by
  induction ks with
  | nil => simp [runConvexRemoves] at h
  | cons k rest ih =>
    rw [runConvexRemoves] at h
    cases hf : f k with
    | error s =>
      rw [hf] at h
      simp at h
      rcases h with h | h | h
      · exact ⟨k, List.mem_cons_self .., Or.inl h⟩
      · exact ⟨k, List.mem_cons_self .., Or.inr h⟩
      · obtain ⟨k0, hk0, he⟩ := ih h
        exact ⟨k0, List.mem_cons_of_mem _ hk0, he⟩
    | ok u =>
      rw [hf] at h
      simp at h
      rcases h with h | h
      · exact ⟨k, List.mem_cons_self .., Or.inl h⟩
      · obtain ⟨k0, hk0, he⟩ := ih h
        exact ⟨k0, List.mem_cons_of_mem _ hk0, he⟩

theorem remove_mem_runConvexRemoves {ks : List String}
    {f : String → Except String Unit} {k : String} (h : k ∈ ks) :
    CEvent.remove k ∈ runConvexRemoves ks f := by
  induction ks with
  | nil => simp at h
  | cons k0 rest ih =>
    rw [runConvexRemoves]
    cases hf : f k0 with
    | error s =>
      rcases List.mem_cons.1 h with rfl | h1
      · exact List.mem_cons_self ..
      · exact List.mem_cons_of_mem _ (List.mem_cons_of_mem _ (ih h1))
    | ok u =>
      rcases List.mem_cons.1 h with rfl | h1
      · exact List.mem_cons_self ..
      · exact List.mem_cons_of_mem _ (ih h1)

theorem warn_mem_runConvexRemoves {ks : List String}
    {f : String → Except String Unit} {k msg : String}
    (hk : k ∈ ks) (hf : f k = .error msg) :
    CEvent.warn k ∈ runConvexRemoves ks f := by
  induction ks with
  | nil => simp at hk
  | cons k0 rest ih =>
    rw [runConvexRemoves]
    rcases List.mem_cons.1 hk with rfl | h1
    · rw [hf]
      exact List.mem_cons_of_mem _ (List.mem_cons_self ..)
    · cases hf0 : f k0 with
      | error s => exact List.mem_cons_of_mem _ (List.mem_cons_of_mem _ (ih h1))
      | ok u => exact List.mem_cons_of_mem _ (ih h1)

theorem runConvexRemoves_isSet_false {ks : List String}
    {f : String → Except String Unit} {e : CEvent}
    (h : e ∈ runConvexRemoves ks f) : e.isSet = false := by
  obtain ⟨k, _, he | he⟩ := mem_runConvexRemoves h <;> subst he <;> rfl

theorem mem_convexConfirmEvents {b : Bool} {e : CEvent}
    (h : e ∈ convexConfirmEvents b) : e = CEvent.prompt := by
  cases b with
  | true => simp [convexConfirmEvents] at h
  | false => simpa [convexConfirmEvents] using h

theorem pushToConvex_empty {o : ConvexOptions} (w : ConvexWorld)
    (h0 : o.envVars.length = 0) :
    pushToConvex o w = ([], .error (.config "No environment variables provided")) := by
  rw [pushToConvex, if_pos h0]

theorem pushToConvex_listError {o : ConvexOptions} {w : ConvexWorld} {s : String}
    (h0 : ¬ o.envVars.length = 0) (hL : w.listExit = .error s) :
    pushToConvex o w = ([.list], .error (classifyConvexListError s)) := by
  rw [pushToConvex, if_neg h0, hL]

theorem pushToConvex_cancel {o : ConvexOptions} {w : ConvexWorld} {stdout : String}
    (h0 : ¬ o.envVars.length = 0) (hL : w.listExit = .ok stdout)
    (hc : (!o.skipConfirmation && !(lowerStr w.answer == "yes")) = true) :
    pushToConvex o w = ([.list, .prompt], .ok ()) := by
  rw [pushToConvex, if_neg h0, hL]
  exact if_pos hc

theorem pushToConvex_applies {o : ConvexOptions} {w : ConvexWorld} {stdout : String}
    (h0 : ¬ o.envVars.length = 0) (hL : w.listExit = .ok stdout)
    (hc : (!o.skipConfirmation && !(lowerStr w.answer == "yes")) = false) :
    pushToConvex o w = convexApply o w stdout := by
  rw [pushToConvex, if_neg h0, hL]
  exact if_neg (by simp [hc])

theorem convexApply_setError {o : ConvexOptions} {w : ConvexWorld} {t : String}
    {e : PushError} (hs : (runConvexSets o.envVars w.setExit).2 = some e) :
    convexApply o w t =
      (.list :: convexConfirmEvents o.skipConfirmation ++
         (runConvexSets o.envVars w.setExit).1,
       .error e) := by
  rw [convexApply, hs]

theorem convexApply_setOk {o : ConvexOptions} {w : ConvexWorld} {t : String}
    (hs : (runConvexSets o.envVars w.setExit).2 = none) :
    convexApply o w t =
      (.list :: convexConfirmEvents o.skipConfirmation ++
         (runConvexSets o.envVars w.setExit).1 ++
         runConvexRemoves (convexToRemove t o.envVars) w.removeExit,
       .ok ()) := by
  rw [convexApply, hs]

/-- Every trace of the Convex reconciler has one of four shapes: empty
(rejected input), list only (list failure), list then prompt
(cancellation), or list, optional prompt and the set phase, followed by
the remove phase exactly when the set phase fully succeeded. -/
theorem pushToConvex_trace_shape (o : ConvexOptions) (w : ConvexWorld) :
    (pushToConvex o w).1 = [] ∨ (pushToConvex o w).1 = [.list] ∨
    (pushToConvex o w).1 = [.list, .prompt] ∨
    ∃ stdout, w.listExit = .ok stdout ∧
      (((runConvexSets o.envVars w.setExit).2 ≠ none ∧
        (pushToConvex o w).1 =
          .list :: convexConfirmEvents o.skipConfirmation ++
            (runConvexSets o.envVars w.setExit).1) ∨
       ((runConvexSets o.envVars w.setExit).2 = none ∧
        (pushToConvex o w).1 =
          .list :: convexConfirmEvents o.skipConfirmation ++
            (runConvexSets o.envVars w.setExit).1 ++
            runConvexRemoves (convexToRemove stdout o.envVars) w.removeExit)) := by
  by_cases h0 : o.envVars.length = 0
  · rw [pushToConvex_empty w h0]
    exact Or.inl rfl
  · cases hL : w.listExit with
    | error s =>
      rw [pushToConvex_listError h0 hL]
      exact Or.inr (Or.inl rfl)
    | ok stdout =>
      cases hc : (!o.skipConfirmation && !(lowerStr w.answer == "yes")) with
      | true =>
        rw [pushToConvex_cancel h0 hL hc]
        exact Or.inr (Or.inr (Or.inl rfl))
      | false =>
        refine Or.inr (Or.inr (Or.inr ⟨stdout, rfl, ?_⟩))
        rw [pushToConvex_applies h0 hL hc]
        cases hs : (runConvexSets o.envVars w.setExit).2 with
        | some e => exact Or.inl ⟨by simp [hs], by rw [convexApply_setError hs]⟩
        | none => exact Or.inr ⟨rfl, by rw [convexApply_setOk hs]⟩

/-- C10: the Convex reconciler never removes an empty variable name:
the empty key is filtered out of `keysToRemove`, and no run's trace
contains a remove call with the empty name. -/
theorem claim_C10_no_empty_key_removal :
    (∀ current new : List String, "" ∉ keysToRemove current new) ∧
    (∀ (o : ConvexOptions) (w : ConvexWorld),
      CEvent.remove "" ∉ (pushToConvex o w).1) := by
  refine ⟨fun current new => empty_not_mem_keysToRemove current new, ?_⟩
  intro o w h
  rcases pushToConvex_trace_shape o w with hs | hs | hs | ⟨stdout, _, ⟨_, hs⟩ | ⟨_, hs⟩⟩ <;>
    rw [hs] at h
  · simp at h
  · simp at h
  · simp at h
  · rcases List.mem_cons.1 h with h | h
    · exact absurd h (by simp)
    · rcases List.mem_append.1 h with h | h
      · exact absurd (mem_convexConfirmEvents h) (by simp)
      · exact absurd (runConvexSets_isSet h) (by simp [CEvent.isSet])
  · rcases List.mem_cons.1 h with h | h
    · exact absurd h (by simp)
    · rcases List.mem_append.1 h with h | h
      · rcases List.mem_append.1 h with h | h
        · exact absurd (mem_convexConfirmEvents h) (by simp)
        · exact absurd (runConvexSets_isSet h) (by simp [CEvent.isSet])
      · obtain ⟨k, hk, he | he⟩ := mem_runConvexRemoves h
        · obtain rfl : "" = k := by simpa [CEvent.remove.injEq] using he
          exact empty_not_mem_keysToRemove _ _ hk
        · simp at he

/-! ## Vercel helper lemmas -/

theorem mem_vercelConfirmEvents {b : Bool} {e : VEvent}
    (h : e ∈ vercelConfirmEvents b) : e = VEvent.prompt := by
  cases b with
  | true => simp [vercelConfirmEvents] at h
  | false => simpa [vercelConfirmEvents] using h

theorem mem_runVercelRemoves {envs : List RemoteEnv}
    {f : String → Except String Unit} {e : VEvent}
    (h : e ∈ (runVercelRemoves envs f).1) :
    ∃ env ∈ envs, ∃ i, env.id = some i ∧ (i == "") = false ∧ e = VEvent.removeEnv i := by
  induction envs with
  | nil => simp [runVercelRemoves] at h
  | cons env rest ih =>
    rw [runVercelRemoves] at h
    cases hid : env.id with
    | none =>
      rw [hid] at h
      obtain ⟨env0, h0, hrest⟩ := ih h
      exact ⟨env0, List.mem_cons_of_mem _ h0, hrest⟩
    | some i =>
      rw [hid] at h
      dsimp only at h
      by_cases hi : (i == "") = true
      · rw [if_pos hi] at h
        obtain ⟨env0, h0, hrest⟩ := ih h
        exact ⟨env0, List.mem_cons_of_mem _ h0, hrest⟩
      · rw [if_neg hi] at h
        cases hf : f i with
        | error msg =>
          rw [hf] at h
          simp at h
          exact ⟨env, List.mem_cons_self .., i, hid, by simpa using hi, h⟩
        | ok u =>
          rw [hf] at h
          rcases List.mem_cons.1 h with rfl | h1
          · exact ⟨env, List.mem_cons_self .., i, hid, by simpa using hi, rfl⟩
          · obtain ⟨env0, h0, hrest⟩ := ih h1
            exact ⟨env0, List.mem_cons_of_mem _ h0, hrest⟩

theorem runVercelRemoves_none_ok {envs : List RemoteEnv}
    {f : String → Except String Unit}
    (h : (runVercelRemoves envs f).2 = none) {i : String}
    (hm : VEvent.removeEnv i ∈ (runVercelRemoves envs f).1) : f i = .ok () := by
  induction envs with
  | nil => simp [runVercelRemoves] at hm
  | cons env rest ih =>
    rw [runVercelRemoves] at h hm
    cases hid : env.id with
    | none =>
      rw [hid] at h hm
      exact ih h hm
    | some j =>
      rw [hid] at h hm
      dsimp only at h hm
      by_cases hj : (j == "") = true
      · rw [if_pos hj] at h hm
        exact ih h hm
      · rw [if_neg hj] at h hm
        cases hf : f j with
        | error msg =>
          rw [hf] at h
          simp at h
        | ok u =>
          rw [hf] at h hm
          rcases List.mem_cons.1 hm with he | h1
          · obtain rfl : i = j := by simpa [VEvent.removeEnv.injEq] using he
            cases u
            exact hf
          · exact ih h h1

theorem vercelCustomPhase_fst (p : String) (o : VercelOptions) (w : VercelWorld)
    (ik : Bool) (nt : String) :
    (vercelCustomPhase p o w ik nt).1 = [] ∨
    (vercelCustomPhase p o w ik nt).1 = [VEvent.fetchCustomEnvs] := by
  rw [vercelCustomPhase]
  split
  · exact Or.inl rfl
  · split
    · exact Or.inr rfl
    · split
      · split
        · exact Or.inr rfl
        · exact Or.inr rfl
      · exact Or.inr rfl

theorem vercelApply_removeError {o : VercelOptions} {w : VercelWorld}
    {ik : Bool} {nt : String} {cid : Option String} {t : List RemoteEnv} {msg : String}
    (hr : (runVercelRemoves t w.removeExit).2 = some msg) :
    vercelApply o w ik nt cid t =
      (vercelConfirmEvents o.skipConfirmation ++ (runVercelRemoves t w.removeExit).1,
       .error (.api ("Failed to deploy to Vercel: " ++ msg))) := by
  rw [vercelApply, hr]

theorem vercelApply_createError {o : VercelOptions} {w : VercelWorld}
    {ik : Bool} {nt : String} {cid : Option String} {t : List RemoteEnv} {msg : String}
    (hr : (runVercelRemoves t w.removeExit).2 = none)
    (hcr : w.createExit = .error msg) :
    vercelApply o w ik nt cid t =
      (vercelConfirmEvents o.skipConfirmation ++ (runVercelRemoves t w.removeExit).1 ++
         [.createEnvs (vercelRequestBody o.envVars ik nt (cid.getD ""))],
       .error (.api ("Failed to deploy to Vercel: " ++ msg))) := by
  rw [vercelApply, hr, hcr]

theorem vercelApply_ok {o : VercelOptions} {w : VercelWorld}
    {ik : Bool} {nt : String} {cid : Option String} {t : List RemoteEnv}
    (hr : (runVercelRemoves t w.removeExit).2 = none)
    (hcr : w.createExit = .ok ()) :
    vercelApply o w ik nt cid t =
      (vercelConfirmEvents o.skipConfirmation ++ (runVercelRemoves t w.removeExit).1 ++
         [.createEnvs (vercelRequestBody o.envVars ik nt (cid.getD ""))],
       .ok ()) := by
  rw [vercelApply, hr, hcr]

theorem vercelApply_trace_shape (o : VercelOptions) (w : VercelWorld)
    (ik : Bool) (nt : String) (cid : Option String) (t : List RemoteEnv) :
    (vercelApply o w ik nt cid t).1 =
      vercelConfirmEvents o.skipConfirmation ++ (runVercelRemoves t w.removeExit).1 ∨
    (vercelApply o w ik nt cid t).1 =
      vercelConfirmEvents o.skipConfirmation ++ (runVercelRemoves t w.removeExit).1 ++
        [.createEnvs (vercelRequestBody o.envVars ik nt (cid.getD ""))] := by
  cases hr : (runVercelRemoves t w.removeExit).2 with
  | some msg => rw [vercelApply_removeError hr]; exact Or.inl rfl
  | none =>
    cases hcr : w.createExit with
    | error msg => rw [vercelApply_createError hr hcr]; exact Or.inr rfl
    | ok u =>
      cases u
      rw [vercelApply_ok hr hcr]
      exact Or.inr rfl

theorem vercelRun_empty {p : String} {o : VercelOptions} (w : VercelWorld)
    (h0 : o.envVars.length = 0) :
    vercelRun p o w = ([], .error (.config "No environment variables provided")) := by
  rw [vercelRun, if_pos h0]

theorem vercelRun_customError {p : String} {o : VercelOptions} {w : VercelWorld}
    {evs : List VEvent} {e : PushError}
    (h0 : ¬ o.envVars.length = 0)
    (hcp : vercelCustomPhase p o w (vercelIsKnown o) (vercelNormTarget o) = (evs, .error e)) :
    vercelRun p o w = (evs, .error e) := by
  rw [vercelRun, if_neg h0, hcp]

theorem vercelRun_listError {p : String} {o : VercelOptions} {w : VercelWorld}
    {evs : List VEvent} {cid : Option String} {msg : String}
    (h0 : ¬ o.envVars.length = 0)
    (hcp : vercelCustomPhase p o w (vercelIsKnown o) (vercelNormTarget o) = (evs, .ok cid))
    (hL : w.listExit = .error msg) :
    vercelRun p o w =
      (evs ++ [.listEnvs], .error (.api ("Failed to deploy to Vercel: " ++ msg))) := by
  rw [vercelRun, if_neg h0, hcp, hL]

theorem vercelRun_cancel {p : String} {o : VercelOptions} {w : VercelWorld}
    {evs : List VEvent} {cid : Option String} {envs : List RemoteEnv}
    (h0 : ¬ o.envVars.length = 0)
    (hcp : vercelCustomPhase p o w (vercelIsKnown o) (vercelNormTarget o) = (evs, .ok cid))
    (hL : w.listExit = .ok envs)
    (hc : (!o.skipConfirmation && !(lowerStr w.answer == "yes")) = true) :
    vercelRun p o w = (evs ++ [.listEnvs, .prompt], .ok ()) := by
  rw [vercelRun, if_neg h0, hcp, hL]
  exact if_pos hc

theorem vercelRun_applies {p : String} {o : VercelOptions} {w : VercelWorld}
    {evs : List VEvent} {cid : Option String} {envs : List RemoteEnv}
    (h0 : ¬ o.envVars.length = 0)
    (hcp : vercelCustomPhase p o w (vercelIsKnown o) (vercelNormTarget o) = (evs, .ok cid))
    (hL : w.listExit = .ok envs)
    (hc : (!o.skipConfirmation && !(lowerStr w.answer == "yes")) = false) :
    vercelRun p o w =
      (evs ++ [.listEnvs] ++
         (vercelApply o w (vercelIsKnown o) (vercelNormTarget o) cid
           (vercelTargetEnvs o cid envs)).1,
       (vercelApply o w (vercelIsKnown o) (vercelNormTarget o) cid
         (vercelTargetEnvs o cid envs)).2) := by
  rw [vercelRun, if_neg h0, hcp, hL]
  exact if_neg (by simp [hc])

theorem pushToVercel_resError {o : VercelOptions} {w : VercelWorld} {e : PushError}
    (hp : vercelProjectIdRes o w = .error e) :
    pushToVercel o w = ([], .error e) := by
  rw [pushToVercel, hp]

theorem pushToVercel_noToken {o : VercelOptions} {w : VercelWorld} {projectId : String}
    (hp : vercelProjectIdRes o w = .ok projectId)
    (ht : (resolveVercelToken o.token w.envToken w.promptedToken == "") = true) :
    pushToVercel o w = ([], .error (.config "Vercel token is required.")) := by
  rw [pushToVercel, hp]
  exact if_pos ht

theorem pushToVercel_run {o : VercelOptions} {w : VercelWorld} {projectId : String}
    (hp : vercelProjectIdRes o w = .ok projectId)
    (ht : (resolveVercelToken o.token w.envToken w.promptedToken == "") = false) :
    pushToVercel o w = vercelRun projectId o w := by
  rw [pushToVercel, hp]
  exact if_neg (by simp [ht])

/-- Every trace of the Vercel reconciler has one of five shapes: empty
(configuration failure before the `try` block or empty input), the custom
phase only, custom phase then list, custom phase then list then the
cancellation prompt, or custom phase, list, and the apply phase. -/
theorem pushToVercel_trace_shape (o : VercelOptions) (w : VercelWorld) :
    (pushToVercel o w).1 = [] ∨
    ∃ evs, (∀ e ∈ evs, e = VEvent.fetchCustomEnvs) ∧
      ((pushToVercel o w).1 = evs ∨
       (pushToVercel o w).1 = evs ++ [.listEnvs] ∨
       (pushToVercel o w).1 = evs ++ [.listEnvs, .prompt] ∨
       ∃ cid envs, w.listExit = .ok envs ∧
         (pushToVercel o w).1 = evs ++ [.listEnvs] ++
           (vercelApply o w (vercelIsKnown o) (vercelNormTarget o) cid
             (vercelTargetEnvs o cid envs)).1 ∧
         (pushToVercel o w).2 =
           (vercelApply o w (vercelIsKnown o) (vercelNormTarget o) cid
             (vercelTargetEnvs o cid envs)).2) := by
  cases hp : vercelProjectIdRes o w with
  | error e =>
    rw [pushToVercel_resError hp]
    exact Or.inl rfl
  | ok projectId =>
    cases ht : (resolveVercelToken o.token w.envToken w.promptedToken == "") with
    | true =>
      rw [pushToVercel_noToken hp ht]
      exact Or.inl rfl
    | false =>
      rw [pushToVercel_run hp ht]
      by_cases h0 : o.envVars.length = 0
      · rw [vercelRun_empty w h0]
        exact Or.inl rfl
      · have hevs : ∀ e ∈ (vercelCustomPhase projectId o w (vercelIsKnown o)
            (vercelNormTarget o)).1, e = VEvent.fetchCustomEnvs := by
          rcases vercelCustomPhase_fst projectId o w (vercelIsKnown o) (vercelNormTarget o)
            with hcpf | hcpf <;> rw [hcpf] <;> simp
        rcases hcp : vercelCustomPhase projectId o w (vercelIsKnown o) (vercelNormTarget o)
          with ⟨evs, rc⟩
        rw [hcp] at hevs
        refine Or.inr ⟨evs, hevs, ?_⟩
        cases rc with
        | error e =>
          rw [vercelRun_customError h0 hcp]
          exact Or.inl rfl
        | ok cid =>
          cases hL : w.listExit with
          | error msg =>
            rw [vercelRun_listError h0 hcp hL]
            exact Or.inr (Or.inl rfl)
          | ok envs =>
            cases hc : (!o.skipConfirmation && !(lowerStr w.answer == "yes")) with
            | true =>
              rw [vercelRun_cancel h0 hcp hL hc]
              exact Or.inr (Or.inr (Or.inl rfl))
            | false =>
              rw [vercelRun_applies h0 hcp hL hc]
              exact Or.inr (Or.inr (Or.inr ⟨cid, envs, rfl, rfl, rfl⟩))

theorem CEvent.isSet_isRemove {e : CEvent} (h : e.isSet = true) : e.isRemove = false := by
  cases e <;> simp_all [CEvent.isSet, CEvent.isRemove]

/-! ## Concrete fixtures -/

/-- A Vercel run with one desired variable, one scope-matching remote
variable, confirmation skipped, every provider call succeeding. -/
def vercelFixO : VercelOptions :=
  { projectId := some "prj", token := some "tok", envVars := [("API_KEY", "x")],
    target := "production", skipConfirmation := true }

/-- The world of `vercelFixO`'s run. -/
def vercelFixW : VercelWorld :=
  { fileProjectId := .error "missing", envToken := none, promptedToken := ""
    customEnvsExit := .ok []
    listExit := .ok [{ id := some "env_old", key := "OLD_VAR",
                       target := some ["production"], customEnvironmentIds := none }]
    answer := "", removeExit := fun _ => .ok (), createExit := .ok () }

/-! ## Claim C1 -/

/-- C1 is false on the code: this Vercel run reaches the apply phase and
completes successfully, yet its trace deletes the stale scope entry
`env_old` before the bulk upsert — a remove call precedes an upsert call
within one run. -/
theorem claim_C1_counterexample :
    (pushToVercel vercelFixO vercelFixW).2 = .ok () ∧
    (pushToVercel vercelFixO vercelFixW).1 =
      [.listEnvs, .removeEnv "env_old",
       .createEnvs [{ key := "API_KEY", value := "x", encrypted := true,
                      scope := .targets ["production"] }]] ∧
    removeBeforeCreate (pushToVercel vercelFixO vercelFixW).1 = true := by
  decide

/-- C1 (amended): each reconciler applies its plan in a fixed
provider-specific order.  The Convex reconciler upserts before removing:
every trace splits into a remove-free prefix and an upsert-free suffix,
and a remove call occurs only in runs whose entire set phase succeeded,
with every desired upsert present in the trace.  The Vercel reconciler
removes before upserting: every trace splits into an upsert-free prefix
and a remove-free suffix. -/
theorem claim_C1_amended_phase_order :
    (∀ (o : ConvexOptions) (w : ConvexWorld),
      setsBeforeRemoves (pushToConvex o w).1 ∧
      (∀ k, CEvent.remove k ∈ (pushToConvex o w).1 →
        (runConvexSets o.envVars w.setExit).2 = none ∧
        ∀ kv ∈ o.envVars, CEvent.set kv.1 kv.2 ∈ (pushToConvex o w).1)) ∧
    (∀ (o : VercelOptions) (w : VercelWorld),
      removesBeforeCreates (pushToVercel o w).1) := by
  constructor
  · intro o w
    rcases pushToConvex_trace_shape o w with hs | hs | hs | ⟨stdout, _, ⟨hns, hs⟩ | ⟨hn, hs⟩⟩
    · constructor
      · exact ⟨[], [], by simp [hs], by simp, by simp⟩
      · intro k hk
        rw [hs] at hk
        simp at hk
    · constructor
      · refine ⟨[.list], [], by simp [hs], ?_, by simp⟩
        intro e he
        rcases List.mem_singleton.1 he with rfl
        rfl
      · intro k hk
        rw [hs] at hk
        simp at hk
    · constructor
      · refine ⟨[.list, .prompt], [], by simp [hs], ?_, by simp⟩
        intro e he
        rcases List.mem_cons.1 he with rfl | he
        · rfl
        · rcases List.mem_singleton.1 he with rfl
          rfl
      · intro k hk
        rw [hs] at hk
        simp [CEvent.remove.injEq] at hk
    · constructor
      · refine ⟨(pushToConvex o w).1, [], by simp, ?_, by simp⟩
        intro e he
        rw [hs] at he
        rcases List.mem_cons.1 he with rfl | he
        · rfl
        · rcases List.mem_append.1 he with he | he
          · rw [mem_convexConfirmEvents he]
            rfl
          · exact CEvent.isSet_isRemove (runConvexSets_isSet he)
      · intro k hk
        rw [hs] at hk
        rcases List.mem_cons.1 hk with hk | hk
        · exact absurd hk (by simp)
        · rcases List.mem_append.1 hk with hk | hk
          · exact absurd (mem_convexConfirmEvents hk) (by simp)
          · exact absurd (runConvexSets_isSet hk) (by simp [CEvent.isSet])
    · constructor
      · refine ⟨.list :: convexConfirmEvents o.skipConfirmation ++
            (runConvexSets o.envVars w.setExit).1,
          runConvexRemoves (convexToRemove stdout o.envVars) w.removeExit,
          by rw [hs], ?_, ?_⟩
        · intro e he
          rcases List.mem_cons.1 he with rfl | he
          · rfl
          · rcases List.mem_append.1 he with he | he
            · rw [mem_convexConfirmEvents he]
              rfl
            · exact CEvent.isSet_isRemove (runConvexSets_isSet he)
        · intro e he
          exact runConvexRemoves_isSet_false he
      · intro k _
        refine ⟨hn, ?_⟩
        intro kv hkv
        rw [hs]
        have := runConvexSets_none_complete hn kv hkv
        simp [this]
  · intro o w
    rcases pushToVercel_trace_shape o w with hs | ⟨evs, hevs, hs | hs | hs | ⟨cid, envs, _, hs, _⟩⟩
    · exact ⟨[], [], by simp [hs], by simp, by simp⟩
    · refine ⟨(pushToVercel o w).1, [], by simp, ?_, by simp⟩
      intro e he
      rw [hs] at he
      rw [hevs e he]
      rfl
    · refine ⟨(pushToVercel o w).1, [], by simp, ?_, by simp⟩
      intro e he
      rw [hs] at he
      rcases List.mem_append.1 he with he | he
      · rw [hevs e he]
        rfl
      · rcases List.mem_singleton.1 he with rfl
        rfl
    · refine ⟨(pushToVercel o w).1, [], by simp, ?_, by simp⟩
      intro e he
      rw [hs] at he
      rcases List.mem_append.1 he with he | he
      · rw [hevs e he]
        rfl
      · rcases List.mem_cons.1 he with rfl | he
        · rfl
        · rcases List.mem_singleton.1 he with rfl
          rfl
    · rcases vercelApply_trace_shape o w (vercelIsKnown o) (vercelNormTarget o) cid
        (vercelTargetEnvs o cid envs) with ha | ha
      · refine ⟨(pushToVercel o w).1, [], by simp, ?_, by simp⟩
        intro e he
        rw [hs, ha] at he
        rcases List.mem_append.1 he with he | he
        · rcases List.mem_append.1 he with he | he
          · rw [hevs e he]
            rfl
          · rcases List.mem_singleton.1 he with rfl
            rfl
        · rcases List.mem_append.1 he with he | he
          · rw [mem_vercelConfirmEvents he]
            rfl
          · obtain ⟨_, _, i, _, _, rfl⟩ := mem_runVercelRemoves he
            rfl
      · refine ⟨evs ++ [.listEnvs] ++
            (vercelConfirmEvents o.skipConfirmation ++
              (runVercelRemoves (vercelTargetEnvs o cid envs) w.removeExit).1),
          [.createEnvs (vercelRequestBody o.envVars (vercelIsKnown o)
            (vercelNormTarget o) (cid.getD ""))],
          by rw [hs, ha]; simp, ?_, by simp [VEvent.isRemove]⟩
        intro e he
        rcases List.mem_append.1 he with he | he
        · rcases List.mem_append.1 he with he | he
          · rw [hevs e he]
            rfl
          · rcases List.mem_singleton.1 he with rfl
            rfl
        · rcases List.mem_append.1 he with he | he
          · rw [mem_vercelConfirmEvents he]
            rfl
          · obtain ⟨_, _, i, _, _, rfl⟩ := mem_runVercelRemoves he
            rfl

/-- Witness instantiating the amended C1 at the concrete fixtures. -/
theorem claim_C1_amended_phase_order_witness :
    removesBeforeCreates (pushToVercel vercelFixO vercelFixW).1 :=
  claim_C1_amended_phase_order.2 vercelFixO vercelFixW

/-! ## Claim C2 -/

/-- A Convex run whose first desired key fails to set. -/
def convexFailO : ConvexOptions :=
  { envVars := [("A", "1"), ("B", "2")], skipConfirmation := true, deploymentName := none }

/-- The world of `convexFailO`'s run: listing succeeds, setting `A` fails. -/
def convexFailW : ConvexWorld :=
  { listExit := .ok "OLD=9\n", answer := ""
    setExit := fun k => if k == "A" then .error "boom" else .ok ()
    removeExit := fun _ => .ok () }

/-- C2: when the upsert of the first desired key fails, the Convex run
aborts at once with a `ConvexApiError` naming that key: the trace contains
that single set call (after list and the optional prompt), no other key is
set, and no remove call is made — nothing is rolled back, the trace holds
no call that would undo the applied upserts. -/
theorem claim_C2_first_upsert_failure_aborts :
    ∀ (o : ConvexOptions) (w : ConvexWorld) (A vA : String)
      (rest : List (String × String)) (e stdout : String),
      o.envVars = (A, vA) :: rest →
      w.listExit = .ok stdout →
      (!o.skipConfirmation && !(lowerStr w.answer == "yes")) = false →
      w.setExit A = .error e →
      (pushToConvex o w).2 = .error (.api ("Failed to set " ++ A ++ ": " ++ e)) ∧
      (pushToConvex o w).1 =
        .list :: convexConfirmEvents o.skipConfirmation ++ [.set A vA] ∧
      (∀ k v, CEvent.set k v ∈ (pushToConvex o w).1 → k = A ∧ v = vA) ∧
      (∀ k, CEvent.remove k ∉ (pushToConvex o w).1) := by
  intro o w A vA rest e stdout ho hL hc hA
  have h0 : ¬ o.envVars.length = 0 := by rw [ho]; simp
  have hsets : runConvexSets o.envVars w.setExit =
      ([CEvent.set A vA], some (.api ("Failed to set " ++ A ++ ": " ++ e))) := by
    rw [ho, runConvexSets, hA]
  have happ := pushToConvex_applies h0 hL hc
  have herr := convexApply_setError (o := o) (w := w) (t := stdout)
    (e := .api ("Failed to set " ++ A ++ ": " ++ e)) (by rw [hsets])
  have htr : (pushToConvex o w).1 =
      .list :: convexConfirmEvents o.skipConfirmation ++ [.set A vA] := by
    rw [happ, herr, hsets]
  refine ⟨by rw [happ, herr], htr, ?_, ?_⟩
  · intro k v hm
    rw [htr] at hm
    rcases List.mem_cons.1 hm with hm | hm
    · exact absurd hm (by simp)
    · rcases List.mem_append.1 hm with hm | hm
      · exact absurd (mem_convexConfirmEvents hm) (by simp)
      · simp only [List.mem_singleton, CEvent.set.injEq] at hm
        exact hm
  · intro k hm
    rw [htr] at hm
    rcases List.mem_cons.1 hm with hm | hm
    · exact absurd hm (by simp)
    · rcases List.mem_append.1 hm with hm | hm
      · exact absurd (mem_convexConfirmEvents hm) (by simp)
      · simp at hm

/-- Witness instantiating C2: in the concrete failing run, the result is
the mutation error naming `A`, `B` is never set, and nothing is removed. -/
theorem claim_C2_first_upsert_failure_aborts_witness :
    (pushToConvex convexFailO convexFailW).2 =
      .error (.api ("Failed to set " ++ "A" ++ ": " ++ "boom")) ∧
    CEvent.set "B" "2" ∉ (pushToConvex convexFailO convexFailW).1 ∧
    ∀ k, CEvent.remove k ∉ (pushToConvex convexFailO convexFailW).1 := by
  obtain ⟨h1, _, h3, h4⟩ := claim_C2_first_upsert_failure_aborts convexFailO convexFailW
    "A" "1" [("B", "2")] "boom" "OLD=9\n" rfl rfl (by decide) (by decide)
  refine ⟨h1, fun hm => ?_, h4⟩
  have := (h3 "B" "2" hm).1
  simp at this

/-! ## Claim C4 -/

theorem vercelProjectIdRes_error_config {o : VercelOptions} {w : VercelWorld}
    {e : PushError} (h : vercelProjectIdRes o w = .error e) :
    e = .config "Project ID is required. Use --project/-p flag or ensure .vercel/project.json exists." := by
  rw [vercelProjectIdRes] at h
  split at h
  · exact absurd h (by simp)
  · split at h
    · exact absurd h (by simp)
    · simp at h
      exact h.symm

/-- An empty desired set for the Convex reconciler. -/
def emptyConvexO : ConvexOptions :=
  { envVars := [], skipConfirmation := true, deploymentName := none }

/-- An empty desired set for the Vercel reconciler. -/
def emptyVercelO : VercelOptions :=
  { projectId := some "prj", token := some "tok", envVars := [],
    target := "production", skipConfirmation := true }

/-- C4: with an empty desired mapping, both reconcilers fail with a
`ConfigError` and their traces are empty — no list, upsert or remove call
is ever issued against the remote store. -/
theorem claim_C4_empty_input_rejected :
    ∀ (o : ConvexOptions) (w : ConvexWorld) (ov : VercelOptions) (wv : VercelWorld),
      o.envVars = [] → ov.envVars = [] →
      pushToConvex o w = ([], .error (.config "No environment variables provided")) ∧
      (∃ m, (pushToVercel ov wv).2 = .error (.config m)) ∧
      (pushToVercel ov wv).1 = [] := by
  intro o w ov wv ho hov
  refine ⟨pushToConvex_empty w (by rw [ho]; rfl), ?_⟩
  cases hp : vercelProjectIdRes ov wv with
  | error e =>
    rw [pushToVercel_resError hp]
    exact ⟨⟨_, by rw [vercelProjectIdRes_error_config hp]⟩, rfl⟩
  | ok projectId =>
    cases ht : (resolveVercelToken ov.token wv.envToken wv.promptedToken == "") with
    | true =>
      rw [pushToVercel_noToken hp ht]
      exact ⟨⟨_, rfl⟩, rfl⟩
    | false =>
      rw [pushToVercel_run hp ht, vercelRun_empty wv (by rw [hov]; rfl)]
      exact ⟨⟨_, rfl⟩, rfl⟩

/-- Witness instantiating C4 at concrete empty-input runs. -/
theorem claim_C4_empty_input_rejected_witness :
    pushToConvex emptyConvexO convexFailW =
      ([], .error (.config "No environment variables provided")) ∧
    (∃ m, (pushToVercel emptyVercelO vercelFixW).2 = .error (.config m)) ∧
    (pushToVercel emptyVercelO vercelFixW).1 = [] :=
  claim_C4_empty_input_rejected emptyConvexO convexFailW emptyVercelO vercelFixW rfl rfl

/-! ## Claim C7 -/

theorem convex_cancel_run {o : ConvexOptions} {w : ConvexWorld}
    (hskip : o.skipConfirmation = false) (hans : lowerStr w.answer ≠ "yes") :
    (∀ k v, CEvent.set k v ∉ (pushToConvex o w).1) ∧
    (∀ k, CEvent.remove k ∉ (pushToConvex o w).1) ∧
    (CEvent.prompt ∈ (pushToConvex o w).1 →
      pushToConvex o w = ([.list, .prompt], .ok ())) := by
  have hcb : (!o.skipConfirmation && !(lowerStr w.answer == "yes")) = true := by
    rw [hskip]
    simpa using hans
  by_cases h0 : o.envVars.length = 0
  · rw [pushToConvex_empty w h0]
    exact ⟨by simp, by simp, by simp⟩
  · cases hL : w.listExit with
    | error s =>
      rw [pushToConvex_listError h0 hL]
      exact ⟨by simp, by simp, by simp⟩
    | ok stdout =>
      rw [pushToConvex_cancel h0 hL hcb]
      exact ⟨by simp, by simp, fun _ => rfl⟩

theorem vercel_cancel_run {o : VercelOptions} {w : VercelWorld}
    (hskip : o.skipConfirmation = false) (hans : lowerStr w.answer ≠ "yes") :
    (∀ b, VEvent.createEnvs b ∉ (pushToVercel o w).1) ∧
    (∀ i, VEvent.removeEnv i ∉ (pushToVercel o w).1) ∧
    (VEvent.prompt ∈ (pushToVercel o w).1 → (pushToVercel o w).2 = .ok ()) := by
  have hcb : (!o.skipConfirmation && !(lowerStr w.answer == "yes")) = true := by
    rw [hskip]
    simpa using hans
  cases hp : vercelProjectIdRes o w with
  | error e =>
    rw [pushToVercel_resError hp]
    exact ⟨by simp, by simp, by simp⟩
  | ok projectId =>
    cases ht : (resolveVercelToken o.token w.envToken w.promptedToken == "") with
    | true =>
      rw [pushToVercel_noToken hp ht]
      exact ⟨by simp, by simp, by simp⟩
    | false =>
      rw [pushToVercel_run hp ht]
      by_cases h0 : o.envVars.length = 0
      · rw [vercelRun_empty w h0]
        exact ⟨by simp, by simp, by simp⟩
      · rcases hcp : vercelCustomPhase projectId o w (vercelIsKnown o) (vercelNormTarget o)
          with ⟨evs, rc⟩
        have hevs : ∀ e ∈ evs, e = VEvent.fetchCustomEnvs := by
          have hf := vercelCustomPhase_fst projectId o w (vercelIsKnown o) (vercelNormTarget o)
          rw [hcp] at hf
          rcases hf with hf | hf <;> simp only at hf <;> rw [hf] <;> simp
        cases rc with
        | error e =>
          rw [vercelRun_customError h0 hcp]
          refine ⟨?_, ?_, ?_⟩
          · intro b hm
            exact absurd (hevs _ hm) (by simp)
          · intro i hm
            exact absurd (hevs _ hm) (by simp)
          · intro hm
            exact absurd (hevs _ hm) (by simp)
        | ok cid =>
          cases hL : w.listExit with
          | error msg =>
            rw [vercelRun_listError h0 hcp hL]
            refine ⟨?_, ?_, ?_⟩
            · intro b hm
              rcases List.mem_append.1 hm with hm | hm
              · exact absurd (hevs _ hm) (by simp)
              · simp at hm
            · intro i hm
              rcases List.mem_append.1 hm with hm | hm
              · exact absurd (hevs _ hm) (by simp)
              · simp at hm
            · intro hm
              rcases List.mem_append.1 hm with hm | hm
              · exact absurd (hevs _ hm) (by simp)
              · simp at hm
          | ok envs =>
            rw [vercelRun_cancel h0 hcp hL hcb]
            refine ⟨?_, ?_, fun _ => rfl⟩
            · intro b hm
              rcases List.mem_append.1 hm with hm | hm
              · exact absurd (hevs _ hm) (by simp)
              · simp at hm
            · intro i hm
              rcases List.mem_append.1 hm with hm | hm
              · exact absurd (hevs _ hm) (by simp)
              · simp at hm

/-- C7: when confirmation is required and the operator's answer does not
lowercase to `yes`, neither reconciler issues any upsert or remove call,
and a run that did reach the prompt ends as a normal success (for Convex
the whole run is exactly list, prompt, ok) — cancellation is not an
error. -/
theorem claim_C7_cancellation_is_success :
    ∀ (o : ConvexOptions) (w : ConvexWorld) (ov : VercelOptions) (wv : VercelWorld),
      o.skipConfirmation = false → lowerStr w.answer ≠ "yes" →
      ov.skipConfirmation = false → lowerStr wv.answer ≠ "yes" →
      ((∀ k v, CEvent.set k v ∉ (pushToConvex o w).1) ∧
       (∀ k, CEvent.remove k ∉ (pushToConvex o w).1) ∧
       (CEvent.prompt ∈ (pushToConvex o w).1 →
         pushToConvex o w = ([.list, .prompt], .ok ()))) ∧
      ((∀ b, VEvent.createEnvs b ∉ (pushToVercel ov wv).1) ∧
       (∀ i, VEvent.removeEnv i ∉ (pushToVercel ov wv).1) ∧
       (VEvent.prompt ∈ (pushToVercel ov wv).1 → (pushToVercel ov wv).2 = .ok ())) :=
  fun _ _ _ _ h1 h2 h3 h4 => ⟨convex_cancel_run h1 h2, vercel_cancel_run h3 h4⟩

/-- A Convex run asking for confirmation and answered `no`. -/
def convexCancelO : ConvexOptions :=
  { envVars := [("A", "1")], skipConfirmation := false, deploymentName := none }

/-- The world of `convexCancelO`'s run. -/
def convexCancelW : ConvexWorld :=
  { listExit := .ok "OLD=9\n", answer := "no"
    setExit := fun _ => .ok (), removeExit := fun _ => .ok () }

/-- A Vercel run asking for confirmation and answered `no`. -/
def vercelCancelO : VercelOptions :=
  { projectId := some "prj", token := some "tok", envVars := [("A", "1")],
    target := "production", skipConfirmation := false }

/-- The world of `vercelCancelO`'s run. -/
def vercelCancelW : VercelWorld :=
  { fileProjectId := .error "missing", envToken := none, promptedToken := ""
    customEnvsExit := .ok []
    listExit := .ok [{ id := some "env_old", key := "OLD_VAR",
                       target := some ["production"], customEnvironmentIds := none }]
    answer := "no", removeExit := fun _ => .ok (), createExit := .ok () }

/-- Witness instantiating C7 at concrete cancelled runs: the Convex run is
exactly list, prompt, success, and the Vercel run removes and upserts
nothing. -/
theorem claim_C7_cancellation_is_success_witness :
    pushToConvex convexCancelO convexCancelW = ([.list, .prompt], .ok ()) ∧
    (∀ i, VEvent.removeEnv i ∉ (pushToVercel vercelCancelO vercelCancelW).1) ∧
    (pushToVercel vercelCancelO vercelCancelW).2 = .ok () := by
  obtain ⟨⟨_, _, hcp⟩, ⟨_, hvr, hvp⟩⟩ := claim_C7_cancellation_is_success
    convexCancelO convexCancelW vercelCancelO vercelCancelW rfl (by decide) rfl (by decide)
  exact ⟨hcp (by decide), hvr, hvp (by decide)⟩

/-! ## Claim C3 -/

/-- A Convex run with two stale keys, one of which the provider refuses to
remove (reporting it as required by config). -/
def convexWarnO : ConvexOptions :=
  { envVars := [("A", "1")], skipConfirmation := true, deploymentName := none }

/-- The world of `convexWarnO`'s run. -/
def convexWarnW : ConvexWorld :=
  { listExit := .ok "A=0\nOLD=9\nKEEP=1\n", answer := ""
    setExit := fun _ => .ok ()
    removeExit := fun k => if k == "OLD" then .error "OLD is used in convex config" else .ok () }

/-- C3: once the set phase has completed, a removal failure (including the
provider's protected/in-use refusal) is only warned about in the Convex
reconciler: the run still returns success, the failing key produces a
warning event, and every other stale key is still attempted.  In the
Vercel reconciler removals precede the set phase, so in any run whose set
phase completed (the bulk upsert was issued) every attempted removal had
in fact succeeded — a removal failure never coexists with a completed set
phase there. -/
theorem claim_C3_removal_failure_warns :
    (∀ (o : ConvexOptions) (w : ConvexWorld) (stdout k msg : String),
      o.envVars.length ≠ 0 →
      w.listExit = .ok stdout →
      (!o.skipConfirmation && !(lowerStr w.answer == "yes")) = false →
      (runConvexSets o.envVars w.setExit).2 = none →
      k ∈ convexToRemove stdout o.envVars →
      w.removeExit k = .error msg →
      (pushToConvex o w).2 = .ok () ∧
      CEvent.warn k ∈ (pushToConvex o w).1 ∧
      (∀ k2 ∈ convexToRemove stdout o.envVars,
        CEvent.remove k2 ∈ (pushToConvex o w).1)) ∧
    (∀ (o : VercelOptions) (w : VercelWorld) (b : List EnvPayload) (i : String),
      VEvent.createEnvs b ∈ (pushToVercel o w).1 →
      VEvent.removeEnv i ∈ (pushToVercel o w).1 →
      w.removeExit i = .ok ()) := by
  constructor
  · intro o w stdout k msg h0 hL hc hn hk hrem
    have happ := pushToConvex_applies h0 hL hc
    have hok := convexApply_setOk (o := o) (w := w) (t := stdout) hn
    have htr : (pushToConvex o w).1 =
        .list :: convexConfirmEvents o.skipConfirmation ++
          (runConvexSets o.envVars w.setExit).1 ++
          runConvexRemoves (convexToRemove stdout o.envVars) w.removeExit := by
      rw [happ, hok]
    refine ⟨by rw [happ, hok], ?_, ?_⟩
    · rw [htr]
      have := warn_mem_runConvexRemoves hk hrem
      simp [this]
    · intro k2 hk2
      rw [htr]
      have := remove_mem_runConvexRemoves (f := w.removeExit) hk2
      simp [this]
  · intro o w b i hcr hrm
    rcases pushToVercel_trace_shape o w
      with hs | ⟨evs, hevs, hs | hs | hs | ⟨cid, envs, _, hs, _⟩⟩
    · rw [hs] at hcr
      simp at hcr
    · rw [hs] at hcr
      exact absurd (hevs _ hcr) (by simp)
    · rw [hs] at hcr
      rcases List.mem_append.1 hcr with hm | hm
      · exact absurd (hevs _ hm) (by simp)
      · simp at hm
    · rw [hs] at hcr
      rcases List.mem_append.1 hcr with hm | hm
      · exact absurd (hevs _ hm) (by simp)
      · simp at hm
    · cases hr : (runVercelRemoves (vercelTargetEnvs o cid envs) w.removeExit).2 with
      | some msg =>
        rw [hs, vercelApply_removeError hr] at hcr
        rcases List.mem_append.1 hcr with hm | hm
        · rcases List.mem_append.1 hm with hm | hm
          · exact absurd (hevs _ hm) (by simp)
          · simp at hm
        · rcases List.mem_append.1 hm with hm | hm
          · exact absurd (mem_vercelConfirmEvents hm) (by simp)
          · obtain ⟨_, _, j, _, _, he⟩ := mem_runVercelRemoves hm
            simp at he
      | none =>
        rw [hs] at hrm
        rcases List.mem_append.1 hrm with hm | hm
        · rcases List.mem_append.1 hm with hm | hm
          · exact absurd (hevs _ hm) (by simp)
          · simp at hm
        · rcases vercelApply_trace_shape o w (vercelIsKnown o) (vercelNormTarget o) cid
            (vercelTargetEnvs o cid envs) with ha | ha <;> rw [ha] at hm
          · rcases List.mem_append.1 hm with hm | hm
            · exact absurd (mem_vercelConfirmEvents hm) (by simp)
            · exact runVercelRemoves_none_ok hr hm
          · rcases List.mem_append.1 hm with hm | hm
            · rcases List.mem_append.1 hm with hm | hm
              · exact absurd (mem_vercelConfirmEvents hm) (by simp)
              · exact runVercelRemoves_none_ok hr hm
            · simp at hm

/-- Witness instantiating C3: the concrete Convex run with a protected key
still succeeds, warns about it, attempts the other stale key; the concrete
Vercel run that issued its bulk upsert had only successful removals. -/
theorem claim_C3_removal_failure_warns_witness :
    (pushToConvex convexWarnO convexWarnW).2 = .ok () ∧
    CEvent.warn "OLD" ∈ (pushToConvex convexWarnO convexWarnW).1 ∧
    CEvent.remove "KEEP" ∈ (pushToConvex convexWarnO convexWarnW).1 ∧
    vercelFixW.removeExit "env_old" = .ok () := by
  obtain ⟨h1, h2, h3⟩ := claim_C3_removal_failure_warns.1 convexWarnO convexWarnW
    "A=0\nOLD=9\nKEEP=1\n" "OLD" "OLD is used in convex config"
    (by decide) rfl (by decide) (by decide) (by decide) (by decide)
  refine ⟨h1, h2, h3 "KEEP" (by decide), ?_⟩
  exact claim_C3_removal_failure_warns.2 vercelFixO vercelFixW
    [{ key := "API_KEY", value := "x", encrypted := true,
       scope := .targets ["production"] }] "env_old" (by decide) (by decide)

/-! ## Claim C5 -/

/-- C5 is false on the code: with the non-empty desired set `{A}` and a
remote listing whose line `=x` parses to the empty-string key, that
scope-matching remote key is covered neither by `toRemove` (the plan
filters empty keys out) nor by the desired key set — the coverage half of
the claim fails. -/
theorem claim_C5_counterexample :
    ([("A", "1")] : List (String × String)) ≠ [] ∧
    "" ∈ parseCurrentEnvKeys "=x" ∧
    "" ∉ convexToRemove "=x" [("A", "1")] ∧
    "" ∉ [("A", "1")].map Prod.fst := by decide

/-- C5 (amended): for every non-empty desired set and every remote
listing, `toRemove` is disjoint from the desired keys, and every
*non-empty* parsed remote key is covered by `toRemove` or by the desired
key set (the empty-string key, which JavaScript truthiness filters out of
the plan, is the only exception). -/
theorem claim_C5_amended_plan_partition :
    ∀ (envVars : List (String × String)) (stdout : String),
      envVars ≠ [] →
      (∀ k ∈ convexToRemove stdout envVars, k ∉ envVars.map Prod.fst) ∧
      (∀ k ∈ parseCurrentEnvKeys stdout, k ≠ "" →
        k ∈ convexToRemove stdout envVars ∨ k ∈ envVars.map Prod.fst) := by
  intro envVars stdout _
  constructor
  · intro k hk
    exact keysToRemove_disjoint hk
  · intro k hk hne
    by_cases hd : k ∈ envVars.map Prod.fst
    · exact Or.inr hd
    · exact Or.inl (mem_keysToRemove.2 ⟨hk, hne, hd⟩)

/-- Witness instantiating the amended C5 at a concrete plan. -/
theorem claim_C5_amended_plan_partition_witness :
    "OLD" ∉ [("A", "1")].map Prod.fst ∧
    ("OLD" ∈ convexToRemove "A=1\nOLD=9" [("A", "1")] ∨
     "OLD" ∈ [("A", "1")].map Prod.fst) := by
  obtain ⟨h1, h2⟩ := claim_C5_amended_plan_partition [("A", "1")] "A=1\nOLD=9" (by decide)
  exact ⟨h1 "OLD" (by decide), h2 "OLD" (by decide) (by decide)⟩

/-! ## Store lemmas for claim C6 -/

theorem mem_jsIns {acc : List String} {x k : String} :
    k ∈ (if acc.contains x then acc else acc ++ [x]) ↔ k ∈ acc ∨ k = x := by
  by_cases h : acc.contains x = true
  · rw [if_pos h]
    constructor
    · exact Or.inl
    · rintro (hk | rfl)
      · exact hk
      · simpa using h
  · rw [if_neg h]
    simp

theorem mem_jsSetList_rec (l acc : List String) (k : String) :
    k ∈ l.foldl (fun a x => if a.contains x then a else a ++ [x]) acc ↔
      k ∈ acc ∨ k ∈ l := by
  induction l generalizing acc with
  | nil => simp
  | cons x xs ih =>
    rw [List.foldl_cons, ih, mem_jsIns]
    simp [List.mem_cons]
    tauto

theorem mem_jsSetList {l : List String} {k : String} : k ∈ jsSetList l ↔ k ∈ l := by
  simpa [jsSetList] using mem_jsSetList_rec l [] k

theorem upsertAssoc_fst_eq {s : List (String × String)} {k v : String} :
    (upsertAssoc s k v).map Prod.fst =
      if s.any (fun kv => kv.1 == k) then s.map Prod.fst
      else s.map Prod.fst ++ [k] := by
  rw [upsertAssoc]
  by_cases h : s.any (fun kv => kv.1 == k) = true
  · rw [if_pos h, if_pos h, List.map_map]
    refine List.map_congr_left ?_
    intro p _
    by_cases hpk : (p.1 == k) = true
    · simp only [Function.comp_apply, if_pos hpk]
      exact (beq_iff_eq.1 hpk).symm
    · simp only [Function.comp_apply, if_neg hpk]
  · rw [if_neg h, if_neg h]
    simp

theorem mem_keys_upsertAssoc {s : List (String × String)} {k v k0 : String} :
    k0 ∈ (upsertAssoc s k v).map Prod.fst ↔ k0 ∈ s.map Prod.fst ∨ k0 = k := by
  rw [upsertAssoc_fst_eq]
  by_cases h : s.any (fun kv => kv.1 == k) = true
  · rw [if_pos h]
    have hmem : k ∈ s.map Prod.fst := by
      obtain ⟨kv, hkv, hk⟩ := List.any_eq_true.1 h
      exact List.mem_map.2 ⟨kv, hkv, beq_iff_eq.1 hk⟩
    constructor
    · exact Or.inl
    · rintro (hm | rfl)
      · exact hm
      · exact hmem
  · rw [if_neg h]
    simp

theorem mem_keys_upsertAllAssoc {d : List (String × String)} :
    ∀ {s : List (String × String)} {k0 : String},
      k0 ∈ (upsertAllAssoc s d).map Prod.fst ↔
        k0 ∈ s.map Prod.fst ∨ k0 ∈ d.map Prod.fst := by
  induction d with
  | nil => intro s k0; simp [upsertAllAssoc]
  | cons kv rest ih =>
    intro s k0
    rw [show upsertAllAssoc s (kv :: rest) =
          upsertAllAssoc (upsertAssoc s kv.1 kv.2) rest from rfl,
        ih, mem_keys_upsertAssoc]
    simp [List.mem_cons]
    tauto

theorem upsertAssoc_key_val {s : List (String × String)} {k v : String} :
    ∀ kv ∈ upsertAssoc s k v, kv.1 = k → kv.2 = v := by
  intro kv hm hk
  rw [upsertAssoc] at hm
  by_cases h : s.any (fun p => p.1 == k) = true
  · rw [if_pos h] at hm
    obtain ⟨p, _, hp⟩ := List.mem_map.1 hm
    by_cases hpk : (p.1 == k) = true
    · rw [if_pos hpk] at hp
      rw [← hp]
    · rw [if_neg hpk] at hp
      rw [← hp] at hk
      exact absurd (beq_iff_eq.2 hk) hpk
  · rw [if_neg h] at hm
    rcases List.mem_append.1 hm with hm | hm
    · have := List.any_eq_true.not.1 h
      push_neg at this
      exact absurd (beq_iff_eq.2 hk) (by simpa using this kv hm)
    · rcases List.mem_singleton.1 hm with rfl
      rfl

theorem upsertAssoc_other_key {s : List (String × String)} {k v : String}
    {kv : String × String} (hne : kv.1 ≠ k) :
    kv ∈ upsertAssoc s k v ↔ kv ∈ s := by
  rw [upsertAssoc]
  by_cases h : s.any (fun p => p.1 == k) = true
  · rw [if_pos h]
    constructor
    · intro hm
      obtain ⟨p, hp, hpe⟩ := List.mem_map.1 hm
      by_cases hpk : (p.1 == k) = true
      · rw [if_pos hpk] at hpe
        rw [← hpe] at hne
        simp at hne
      · rw [if_neg hpk] at hpe
        rw [← hpe]
        exact hp
    · intro hm
      refine List.mem_map.2 ⟨kv, hm, ?_⟩
      rw [if_neg (by simpa using hne)]
  · rw [if_neg h]
    constructor
    · intro hm
      rcases List.mem_append.1 hm with hm | hm
      · exact hm
      · rcases List.mem_singleton.1 hm with rfl
        simp at hne
    · intro hm
      exact List.mem_append.2 (Or.inl hm)

theorem upsertAllAssoc_stable {d : List (String × String)} {k : String}
    (hd : k ∉ d.map Prod.fst) :
    ∀ {s : List (String × String)} {kv : String × String}, kv.1 = k →
      (kv ∈ upsertAllAssoc s d ↔ kv ∈ s) := by
  induction d with
  | nil => intro s kv _; simp [upsertAllAssoc]
  | cons q rest ih =>
    intro s kv hk
    have hq : k ≠ q.1 := by
      intro hkq
      exact hd (by simp [hkq])
    have hrest : k ∉ rest.map Prod.fst := by
      intro hm
      exact hd (by simp [hm])
    rw [show upsertAllAssoc s (q :: rest) =
          upsertAllAssoc (upsertAssoc s q.1 q.2) rest from rfl,
        ih hrest hk, upsertAssoc_other_key (by rw [hk]; exact hq)]

theorem upsertAllAssoc_val {d : List (String × String)}
    (hnd : (d.map Prod.fst).Nodup) :
    ∀ {s : List (String × String)}, ∀ p ∈ d, ∀ kv ∈ upsertAllAssoc s d,
      kv.1 = p.1 → kv.2 = p.2 := by
  induction d with
  | nil => intro s p hp; simp at hp
  | cons q rest ih =>
    intro s p hp kv hkv hk
    rw [List.map_cons, List.nodup_cons] at hnd
    obtain ⟨hq, hnr⟩ := hnd
    rw [show upsertAllAssoc s (q :: rest) =
          upsertAllAssoc (upsertAssoc s q.1 q.2) rest from rfl] at hkv
    rcases List.mem_cons.1 hp with rfl | hp
    · have hkv2 : kv ∈ upsertAssoc s p.1 p.2 :=
        (upsertAllAssoc_stable hq (by rw [hk])).1 hkv
      exact upsertAssoc_key_val kv hkv2 hk
    · exact ih hnr p hp kv hkv hk

theorem lookup_eq_of_all {l : List (String × String)} {k v : String}
    (hall : ∀ kv ∈ l, kv.1 = k → kv.2 = v) (hex : k ∈ l.map Prod.fst) :
    List.lookup k l = some v := by
  induction l with
  | nil => simp at hex
  | cons q rest ih =>
    rw [List.lookup]
    cases hq : (k == q.1) with
    | true =>
      have hv : q.2 = v := hall q (List.mem_cons_self ..) (beq_iff_eq.1 hq).symm
      exact congrArg some hv
    | false =>
      have hex2 : k ∈ rest.map Prod.fst := by
        rw [List.map_cons] at hex
        rcases List.mem_cons.1 hex with h | h
        · exact absurd (beq_iff_eq.2 h) (by simp [hq])
        · exact h
      exact ih (fun kv hm hk => hall kv (List.mem_cons_of_mem _ hm) hk) hex2

theorem mem_keys_removeKeysAssoc {l : List (String × String)} {ks : List String}
    {k : String} :
    k ∈ (removeKeysAssoc l ks).map Prod.fst ↔ k ∈ l.map Prod.fst ∧ k ∉ ks := by
  constructor
  · intro hm
    obtain ⟨kv, hkv, hfst⟩ := List.mem_map.1 hm
    obtain ⟨hl, hc⟩ := List.mem_filter.1 hkv
    refine ⟨List.mem_map.2 ⟨kv, hl, hfst⟩, ?_⟩
    intro hk
    rw [← hfst] at hk
    simp at hc
    exact hc hk
  · rintro ⟨hm, hk⟩
    obtain ⟨kv, hkv, hfst⟩ := List.mem_map.1 hm
    refine List.mem_map.2 ⟨kv, List.mem_filter.2 ⟨hkv, ?_⟩, hfst⟩
    rw [hfst]
    simpa using hk

/-! ## Claim C6 -/

/-- The Convex run of the C6 counterexample: desired `{A}`, remote
`{A, OLD}` with `OLD` protected by the provider. -/
def convexIdemO : ConvexOptions :=
  { envVars := [("A", "1")], skipConfirmation := true, deploymentName := none }

/-- The world of `convexIdemO`'s first run. -/
def convexIdemW : ConvexWorld :=
  { listExit := .ok "A=0\nOLD=9", answer := ""
    setExit := fun _ => .ok ()
    removeExit := fun k => if k == "OLD" then .error "OLD is used in convex config" else .ok () }

/-- C6 is false on the code: the first run is successful (removal failures
are only warnings), yet it leaves the protected key `OLD` in the store, so
the second run's plan has `toRemove = [OLD] ≠ ∅`. -/
theorem claim_C6_counterexample :
    (pushToConvex convexIdemO convexIdemW).2 = .ok () ∧
    CEvent.warn "OLD" ∈ (pushToConvex convexIdemO convexIdemW).1 ∧
    convexPostStore [("A", "0"), ("OLD", "9")] [("A", "1")] (fun k => !(k == "OLD")) =
      [("A", "1"), ("OLD", "9")] ∧
    convexToRemove "A=1\nOLD=9" [("A", "1")] = ["OLD"] := by
  decide

/-- C6 (amended): reconcile is idempotent at the plan level for every
first successful run in which all removals succeeded: against the store
produced by such a run, the second plan's `toRemove` is empty, every
desired key is present remotely (so each `toSet` entry classifies as an
update), and every second-run upsert writes the value already stored — no
material remote change. -/
theorem claim_C6_amended_idempotence :
    ∀ (s d : List (String × String)) (removeOk : String → Bool),
      (d.map Prod.fst).Nodup →
      d ≠ [] →
      (∀ k ∈ keysToRemove (jsSetList (s.map Prod.fst)) (d.map Prod.fst),
        removeOk k = true) →
      keysToRemove (jsSetList ((convexPostStore s d removeOk).map Prod.fst))
        (d.map Prod.fst) = [] ∧
      (∀ k ∈ d.map Prod.fst, k ∈ (convexPostStore s d removeOk).map Prod.fst) ∧
      (∀ p ∈ d, List.lookup p.1 (convexPostStore s d removeOk) = some p.2) := by
  intro s d removeOk hnd hne hrem
  have hpostkeys : ∀ k, k ∈ (convexPostStore s d removeOk).map Prod.fst ↔
      (k ∈ (upsertAllAssoc s d).map Prod.fst ∧
       k ∉ convexRemovedKeys (jsSetList (s.map Prod.fst)) (d.map Prod.fst) removeOk) := by
    intro k
    rw [convexPostStore]
    exact mem_keys_removeKeysAssoc
  refine ⟨?_, ?_, ?_⟩
  · rw [keysToRemove]
    rw [List.filter_eq_nil_iff]
    intro k hk
    rw [mem_jsSetList] at hk
    obtain ⟨hup, hnr⟩ := (hpostkeys k).1 hk
    intro hpred
    have hk2 : k ≠ "" ∧ k ∉ d.map Prod.fst := by
      simpa [truthyStr] using hpred
    have hs : k ∈ s.map Prod.fst := by
      rcases mem_keys_upsertAllAssoc.1 hup with h | h
      · exact h
      · exact absurd h hk2.2
    have hkr : k ∈ keysToRemove (jsSetList (s.map Prod.fst)) (d.map Prod.fst) :=
      mem_keysToRemove.2 ⟨mem_jsSetList.2 hs, hk2.1, hk2.2⟩
    exact hnr (List.mem_filter.2 ⟨hkr, hrem k hkr⟩)
  · intro k hk
    refine (hpostkeys k).2 ⟨mem_keys_upsertAllAssoc.2 (Or.inr hk), ?_⟩
    intro hm
    exact keysToRemove_disjoint (List.mem_filter.1 hm).1 hk
  · intro p hp
    refine lookup_eq_of_all ?_ ?_
    · intro kv hkv hk1
      have hkv2 : kv ∈ upsertAllAssoc s d := by
        rw [convexPostStore] at hkv
        exact (List.mem_filter.1 hkv).1
      exact upsertAllAssoc_val hnd p hp kv hkv2 hk1
    · refine (hpostkeys p.1).2
        ⟨mem_keys_upsertAllAssoc.2 (Or.inr (List.mem_map.2 ⟨p, hp, rfl⟩)), ?_⟩
      intro hm
      exact keysToRemove_disjoint (List.mem_filter.1 hm).1
        (List.mem_map.2 ⟨p, hp, rfl⟩)

/-- Witness instantiating the amended C6 at a concrete first run whose
removal succeeded. -/
theorem claim_C6_amended_idempotence_witness :
    keysToRemove (jsSetList ((convexPostStore [("A", "0"), ("OLD", "9")] [("A", "1")]
      (fun _ => true)).map Prod.fst)) ["A"] = [] ∧
    "A" ∈ (convexPostStore [("A", "0"), ("OLD", "9")] [("A", "1")]
      (fun _ => true)).map Prod.fst ∧
    List.lookup "A" (convexPostStore [("A", "0"), ("OLD", "9")] [("A", "1")]
      (fun _ => true)) = some "1" := by
  obtain ⟨h1, h2, h3⟩ := claim_C6_amended_idempotence [("A", "0"), ("OLD", "9")]
    [("A", "1")] (fun _ => true) (by decide) (by decide) (fun k _ => rfl)
  exact ⟨h1, h2 "A" (by decide), h3 ("A", "1") (by decide)⟩

/-! ## Claim C8 -/

theorem startsWithChars_iff {p l : List Char} :
    startsWithChars p l = true ↔ ∃ suf, l = p ++ suf := by
  induction p generalizing l with
  | nil => simp [startsWithChars]
  | cons a ps ih =>
    cases l with
    | nil =>
      simp [startsWithChars]
    | cons x xs =>
      rw [startsWithChars]
      simp only [Bool.and_eq_true, decide_eq_true_eq, ih]
      constructor
      · rintro ⟨rfl, suf, rfl⟩
        exact ⟨suf, rfl⟩
      · rintro ⟨suf, h⟩
        rw [List.cons_append] at h
        injection h with h1 h2
        exact ⟨h1.symm, suf, h2⟩

theorem hasSubChars_iff {pat l : List Char} :
    hasSubChars pat l = true ↔ ∃ pre suf, l = pre ++ pat ++ suf := by
  induction l with
  | nil =>
    rw [hasSubChars]
    simp only [List.isEmpty_iff]
    constructor
    · rintro rfl
      exact ⟨[], [], rfl⟩
    · rintro ⟨pre, suf, h⟩
      rcases List.append_eq_nil.1 (List.append_eq_nil.1 h.symm).1 with ⟨_, h2⟩
      exact h2
  | cons x xs ih =>
    rw [hasSubChars]
    simp only [Bool.or_eq_true, startsWithChars_iff, ih]
    constructor
    · rintro (⟨suf, h⟩ | ⟨pre, suf, h⟩)
      · exact ⟨[], suf, by simpa using h⟩
      · exact ⟨x :: pre, suf, by rw [h]; rfl⟩
    · rintro ⟨pre, suf, h⟩
      cases pre with
      | nil => exact Or.inl ⟨suf, by simpa using h⟩
      | cons y pre2 =>
        rw [List.cons_append, List.cons_append] at h
        injection h with _ h2
        exact Or.inr ⟨pre2, suf, h2⟩

/-- The source's `key.includes(pat)` holds exactly when the name splits
around the pattern. -/
theorem strIncludes_iff {s pat : String} :
    strIncludes s pat = true ↔ ∃ pre suf : String, s = pre ++ pat ++ suf := by
  rw [strIncludes, hasSubChars_iff]
  constructor
  · rintro ⟨pre, suf, h⟩
    refine ⟨String.mk pre, String.mk suf, String.ext ?_⟩
    simpa [String.data_append] using h
  · rintro ⟨pre, suf, rfl⟩
    refine ⟨pre.data, suf.data, ?_⟩
    simp [String.toList, String.data_append]

/-- C8: the encrypted storage classification is chosen exactly when the
name contains one of the case-sensitive substrings `KEY`, `SECRET`,
`TOKEN`; `DB_SECRET` is always encrypted and `DB_URL` plain; and the flag
never changes which keys are set (the bulk upsert's keys are the desired
keys regardless of classification) or removed (the scope filter selecting
the entries to delete depends only on the requested target, not on the
desired variables or their classification). -/
theorem claim_C8_sensitive_classification :
    (∀ k : String, isSecretKey k = true ↔
      ((∃ pre suf : String, k = pre ++ "KEY" ++ suf) ∨
       (∃ pre suf : String, k = pre ++ "SECRET" ++ suf) ∨
       (∃ pre suf : String, k = pre ++ "TOKEN" ++ suf))) ∧
    isSecretKey "DB_SECRET" = true ∧
    isSecretKey "DB_URL" = false ∧
    (∀ (envVars : List (String × String)) (ik : Bool) (nt cid : String),
      (vercelRequestBody envVars ik nt cid).map EnvPayload.key =
        envVars.map Prod.fst ∧
      ∀ p ∈ vercelRequestBody envVars ik nt cid,
        p.encrypted = isSecretKey p.key) ∧
    (∀ o o2 : VercelOptions, o.target = o2.target →
      ∀ (cid : Option String) (envs : List RemoteEnv),
        vercelTargetEnvs o cid envs = vercelTargetEnvs o2 cid envs) := by
  refine ⟨?_, by decide, by decide, ?_, ?_⟩
  · intro k
    rw [isSecretKey]
    simp only [Bool.or_eq_true, strIncludes_iff]
    exact or_assoc
  · intro envVars ik nt cid
    constructor
    · rw [vercelRequestBody, List.map_map]
      rfl
    · intro p hp
      obtain ⟨kv, _, rfl⟩ := List.mem_map.1 hp
      rfl
  · intro o o2 htg cid envs
    rw [vercelTargetEnvs, vercelTargetEnvs, vercelIsKnown, vercelIsKnown,
      vercelNormTarget, vercelNormTarget, htg]

/-- Witness instantiating C8: `DB_SECRET` decomposes around `SECRET`, and
two option records sharing the target `production` select the same
entries to delete. -/
theorem claim_C8_sensitive_classification_witness :
    isSecretKey "DB_SECRET" = true ∧
    vercelTargetEnvs vercelFixO (some "c")
        [{ id := some "e", key := "X", target := some ["production"],
           customEnvironmentIds := none }] =
      vercelTargetEnvs vercelCancelO (some "c")
        [{ id := some "e", key := "X", target := some ["production"],
           customEnvironmentIds := none }] :=
  ⟨(claim_C8_sensitive_classification.1 "DB_SECRET").2
      (Or.inr (Or.inl ⟨"DB_", "", by decide⟩)),
   claim_C8_sensitive_classification.2.2.2.2 vercelFixO vercelCancelO rfl (some "c") _⟩

/-! ## Claim C9 -/

/-- A fetched entry that belongs to the `production` scope. -/
def envProdFix : RemoteEnv :=
  { id := some "e1", key := "OLD", target := some ["production"],
    customEnvironmentIds := none }

/-- A fetched entry outside the `production` scope. -/
def envPrevFix : RemoteEnv :=
  { id := some "e2", key := "PREV", target := some ["preview"],
    customEnvironmentIds := none }

/-- A Vercel world whose listing contains one in-scope and one
out-of-scope entry. -/
def vercelScopeW : VercelWorld :=
  { fileProjectId := .error "missing", envToken := none, promptedToken := ""
    customEnvsExit := .ok []
    listExit := .ok [envProdFix, envPrevFix]
    answer := "", removeExit := fun _ => .ok (), createExit := .ok () }

/-- C9: a fetched entry whose scope membership does not match the
requested scope is excluded from the plan (it is not in `targetEnvs`, so
it is never reported); every remove call of a run carries the handle of
some scope-matching fetched entry; and the bulk upsert's payload names
exactly the desired keys and addresses only the requested scope (the
well-known target, or a single custom environment id) — so an
out-of-scope entry is never removed or overwritten. -/
theorem claim_C9_out_of_scope_invisible :
    ∀ (o : VercelOptions) (w : VercelWorld) (envs : List RemoteEnv)
      (e : RemoteEnv) (cid : Option String),
      w.listExit = .ok envs →
      e ∈ envs →
      envScopeMatches (vercelIsKnown o) (vercelNormTarget o) cid e = false →
      e ∉ vercelTargetEnvs o cid envs ∧
      (∀ i, VEvent.removeEnv i ∈ (pushToVercel o w).1 →
        ∃ e2 ∈ envs, e2.id = some i ∧
          ∃ cid2, envScopeMatches (vercelIsKnown o) (vercelNormTarget o) cid2 e2 = true) ∧
      (∀ b, VEvent.createEnvs b ∈ (pushToVercel o w).1 →
        b.map EnvPayload.key = o.envVars.map Prod.fst ∧
        ∀ p ∈ b,
          (vercelIsKnown o = true → p.scope = ScopePayload.targets [vercelNormTarget o]) ∧
          (vercelIsKnown o = false → ∃ c, p.scope = ScopePayload.customIds [c])) := by
  intro o w envs e cid hL he hne
  refine ⟨?_, ?_, ?_⟩
  · intro hm
    have := (List.mem_filter.1 hm).2
    rw [hne] at this
    exact absurd this (by simp)
  · intro i hrm
    rcases pushToVercel_trace_shape o w
      with hs | ⟨evs, hevs, hs | hs | hs | ⟨cid2, envs2, hL2, hs, _⟩⟩
    · rw [hs] at hrm
      simp at hrm
    · rw [hs] at hrm
      exact absurd (hevs _ hrm) (by simp)
    · rw [hs] at hrm
      rcases List.mem_append.1 hrm with hm | hm
      · exact absurd (hevs _ hm) (by simp)
      · simp at hm
    · rw [hs] at hrm
      rcases List.mem_append.1 hrm with hm | hm
      · exact absurd (hevs _ hm) (by simp)
      · simp at hm
    · have henvs : envs2 = envs := by
        rw [hL] at hL2
        injection hL2 with h
        exact h.symm
      rw [henvs] at hs
      rw [hs] at hrm
      rcases List.mem_append.1 hrm with hm | hm
      · rcases List.mem_append.1 hm with hm | hm
        · exact absurd (hevs _ hm) (by simp)
        · simp at hm
      · have hm2 : VEvent.removeEnv i ∈
            (runVercelRemoves (vercelTargetEnvs o cid2 envs) w.removeExit).1 := by
          rcases vercelApply_trace_shape o w (vercelIsKnown o) (vercelNormTarget o) cid2
            (vercelTargetEnvs o cid2 envs) with ha | ha <;> rw [ha] at hm
          · rcases List.mem_append.1 hm with hm | hm
            · exact absurd (mem_vercelConfirmEvents hm) (by simp)
            · exact hm
          · rcases List.mem_append.1 hm with hm | hm
            · rcases List.mem_append.1 hm with hm | hm
              · exact absurd (mem_vercelConfirmEvents hm) (by simp)
              · exact hm
            · simp at hm
        obtain ⟨e2, he2, j, hid, _, hev⟩ := mem_runVercelRemoves hm2
        obtain rfl : i = j := by simpa [VEvent.removeEnv.injEq] using hev
        obtain ⟨he2e, hmt⟩ := List.mem_filter.1 he2
        exact ⟨e2, he2e, hid, cid2, hmt⟩
  · intro b hcr
    rcases pushToVercel_trace_shape o w
      with hs | ⟨evs, hevs, hs | hs | hs | ⟨cid2, envs2, hL2, hs, _⟩⟩
    · rw [hs] at hcr
      simp at hcr
    · rw [hs] at hcr
      exact absurd (hevs _ hcr) (by simp)
    · rw [hs] at hcr
      rcases List.mem_append.1 hcr with hm | hm
      · exact absurd (hevs _ hm) (by simp)
      · simp at hm
    · rw [hs] at hcr
      rcases List.mem_append.1 hcr with hm | hm
      · exact absurd (hevs _ hm) (by simp)
      · simp at hm
    · rw [hs] at hcr
      have hb : b = vercelRequestBody o.envVars (vercelIsKnown o) (vercelNormTarget o)
          (cid2.getD "") := by
        rcases List.mem_append.1 hcr with hm | hm
        · rcases List.mem_append.1 hm with hm | hm
          · exact absurd (hevs _ hm) (by simp)
          · simp at hm
        · rcases vercelApply_trace_shape o w (vercelIsKnown o) (vercelNormTarget o) cid2
            (vercelTargetEnvs o cid2 envs2) with ha | ha <;> rw [ha] at hm
          · rcases List.mem_append.1 hm with hm | hm
            · exact absurd (mem_vercelConfirmEvents hm) (by simp)
            · obtain ⟨_, _, j, _, _, hev⟩ := mem_runVercelRemoves hm
              simp at hev
          · rcases List.mem_append.1 hm with hm | hm
            · rcases List.mem_append.1 hm with hm | hm
              · exact absurd (mem_vercelConfirmEvents hm) (by simp)
              · obtain ⟨_, _, j, _, _, hev⟩ := mem_runVercelRemoves hm
                simp at hev
            · simpa [VEvent.createEnvs.injEq] using List.mem_singleton.1 hm
      subst hb
      constructor
      · rw [vercelRequestBody, List.map_map]
        rfl
      · intro p hp
        obtain ⟨kv, _, rfl⟩ := List.mem_map.1 hp
        constructor
        · intro hik
          simp [hik]
        · intro hik
          refine ⟨cid2.getD "", ?_⟩
          simp [hik]

/-- Witness instantiating C9 at a concrete run with one in-scope and one
out-of-scope entry: the out-of-scope entry is not in the plan, the one
remove call carries the in-scope handle, and the upsert payload names the
desired key under the requested scope. -/
theorem claim_C9_out_of_scope_invisible_witness :
    envPrevFix ∉ vercelTargetEnvs vercelFixO none [envProdFix, envPrevFix] ∧
    (∃ e2 ∈ [envProdFix, envPrevFix], e2.id = some "e1" ∧
      ∃ cid2, envScopeMatches (vercelIsKnown vercelFixO) (vercelNormTarget vercelFixO)
        cid2 e2 = true) ∧
    (vercelRequestBody vercelFixO.envVars (vercelIsKnown vercelFixO)
        (vercelNormTarget vercelFixO) "").map EnvPayload.key =
      vercelFixO.envVars.map Prod.fst := by
  obtain ⟨h1, h2, h3⟩ := claim_C9_out_of_scope_invisible vercelFixO vercelScopeW
    [envProdFix, envPrevFix] envPrevFix none rfl (by decide) (by decide)
  exact ⟨h1, h2 "e1" (by decide),
    (h3 (vercelRequestBody vercelFixO.envVars (vercelIsKnown vercelFixO)
      (vercelNormTarget vercelFixO) "") (by decide)).1⟩

end DotenvPush
